import Mathlib

/-!
The rkt content-addressable image store (`store/store.go`).

A shallow embedding of the store facade: key derivation, prefix resolution,
ingest, read, query by name and labels, removal, rendering into the tree
store, and opening the store with its schema check and migration.

Conventions of the embedding.

* A Go `string` is a sequence of bytes; it is embedded as a `List Char`, one
  element per byte, so `len(s)` is `List.length`, `s[:n]` is `List.take` and
  `strings.HasPrefix` is `List.isPrefixOf`.
* A Go `[]byte` is a `List Byte` with `Byte = Fin 256`.
* An `error` is a value of `Error`: one constructor per `fmt.Errorf` format of
  `store.go`, holding the formatted arguments.  Errors that come from outside
  the package (the file system, the database driver, the lock files, the JSON
  and ACI libraries) are `ExtError`s.
* A function that returns `(T, error)` returns `Except Error T`; a function
  that also changes the store returns the new store next to the result.
* What the environment decides during a call (which external operation fails,
  what the libraries compute) is an explicit parameter: `Env` for the
  operations on images, `TreeEnv` for rendering, `OpenEnv` for `NewStore`.
-/

set_option autoImplicit false
set_option maxRecDepth 8000

namespace Rkt

/-! ## Basic types -/

/-- One byte of a `[]byte`. -/
abbrev Byte := Fin 256

/-- A Go string: its bytes in order. -/
abbrev GoString := List Char

/-- An error raised outside the store package, known by its message. -/
structure ExtError where
  msg : String
  deriving DecidableEq, Repr

/-! ## Constants (`store.go` lines 40-62) -/

/-- The tag every key starts with: `hashPrefix = "sha512-"`. -/
def hashPrefix : GoString := ['s', 'h', 'a', '5', '1', '2', '-']

/-- Raw byte size of a SHA-512 sum: `lenHash = sha512.Size`. -/
def lenHash : Nat := 64

/-- Half length, in hex characters: `lenHashKey = (lenHash / 2) * 2`. -/
def lenHashKey : Nat := (lenHash / 2) * 2

/-- Full key length: `lenKey = len(hashPrefix) + lenHashKey`. -/
def lenKey : Nat := hashPrefix.length + lenHashKey

/-- Shortest accepted key: `minlenKey = len(hashPrefix) + 2`. -/
def minlenKey : Nat := hashPrefix.length + 2

/-! ## Key derivation (`store.go` lines 619-637) -/

/-- The digits used by the `%x` verb. -/
def ldigits : List Char := ("0123456789abcdef").toList

/-- One digit of `%x`: `ldigits[n]`. -/
def hexDigit (n : Nat) : Char := ldigits.getD n '0'

/-- The verb `%x` on one byte: high nibble, then low nibble. -/
def hexByte (b : Byte) : List Char := [hexDigit (b.val / 16), hexDigit (b.val % 16)]

/-- The verb `%x` on a `[]byte`: two lowercase hex digits per byte. -/
def hexEncode : List Byte → List Char
  | [] => []
  | b :: k => hexByte b ++ hexEncode k

/-- The slice expression `s[lo:hi]` on a string; out of range panics (`none`). -/
def slice (s : GoString) (lo hi : Nat) : Option GoString :=
  if lo ≤ hi ∧ hi ≤ s.length then some ((s.take hi).drop lo) else none

/-- The function `keyToString`: panics (`none`) unless `len(k) == lenHash`,
otherwise `fmt.Sprintf("%s%x", hashPrefix, k)[0:lenKey]`. -/
def keyToString (k : List Byte) : Option GoString :=
  if k.length ≠ lenHash then none
  else slice (hashPrefix ++ hexEncode k) 0 lenKey

/-- The function `hashToKey`, on the sum `h.Sum(nil)` of the hash. -/
def hashToKey (sum : List Byte) : Option GoString := keyToString sum

/-- The method `Store.HashToKey`. -/
def HashToKey (sum : List Byte) : Option GoString := hashToKey sum

/-- A lowercase hexadecimal character. -/
def isLowerHex (c : Char) : Bool := c ∈ ldigits

/-! ## Errors -/

/-- A label of an image manifest (`types.Label`). -/
structure Label where
  Name : GoString
  Value : GoString
  deriving DecidableEq, Repr

/-- The errors of `store.go`.  `ErrKeyNotFound` is the package variable; every
other constructor is one `fmt.Errorf` format with its arguments, `ext` is an
error of the environment handed on unchanged, and `panic` stands for a
run-time panic (it is not an `error` value). -/
inductive Error where
  /-- An error of the environment returned as it is. -/
  | ext (err : ExtError)
  /-- The variable `ErrKeyNotFound = errors.New("no keys found")`. -/
  | ErrKeyNotFound
  /-- The format `"wrong key prefix"`. -/
  | wrongKeyPrefix
  /-- The format `"key too short"`. -/
  | keyTooShort
  /-- The format `"error retrieving ACI Infos: %v"`. -/
  | errorRetrievingACIInfos (err : Error)
  /-- The format `"ambiguous key: %q"`. -/
  | ambiguousKey (key : GoString)
  /-- The format `"error resolving key: %v"`. -/
  | errorResolvingKey (err : Error)
  /-- The format `"error locking image: %v"`. -/
  | errorLockingImage (err : ExtError)
  /-- The format `"error decompressing image: %v"`. -/
  | errorDecompressingImage (err : ExtError)
  /-- The format `"error creating image: %v"`. -/
  | errorCreatingImage (err : ExtError)
  /-- The format `"error copying image: %v"`. -/
  | errorCopyingImage (err : ExtError)
  /-- The format `"error extracting image manifest: %v"`. -/
  | errorExtractingImageManifest (err : ExtError)
  /-- The format `"error closing image: %v"`. -/
  | errorClosingImage (err : ExtError)
  /-- The format `"error importing image: %v"`. -/
  | errorImportingImage (err : ExtError)
  /-- The format `"error marshalling image manifest: %v"`. -/
  | errorMarshallingImageManifest (err : ExtError)
  /-- The format `"error importing image manifest: %v"`. -/
  | errorImportingImageManifest (err : ExtError)
  /-- The format `"error writing ACI Info: %v"`. -/
  | errorWritingACIInfo (err : Error)
  /-- The format `"error getting aciinfo: %v"`. -/
  | errorGettingAciinfo (err : Error)
  /-- The format `"cannot find image with key: %s"`. -/
  | cannotFindImageWithKey (key : GoString)
  /-- The format `"cannot remove image with key: %s from db: %v"`. -/
  | cannotRemoveImageFromDB (key : GoString) (err : Error)
  /-- The type `StoreRemovalError` with its field `errors`. -/
  | StoreRemovalError (errors : List ExtError)
  /-- The format `"error retrieving image manifest: %v"`. -/
  | errorRetrievingImageManifest (err : ExtError)
  /-- The format `"error unmarshalling image manifest: %v"`. -/
  | errorUnmarshallingImageManifest (err : ExtError)
  /-- The format `"error getting image manifest: %v"`. -/
  | errorGettingImageManifest (err : Error)
  /-- The format `"cannot find aci satisfying name: %q and labels: %s in the local store"`. -/
  | cannotFindACI (name : GoString) (labels : List Label)
  /-- A run-time panic. -/
  | panic
  /-- The format `"error locking tree store: %v"`. -/
  | errorLockingTreeStore (err : ExtError)
  /-- The format `"cannot determine if tree is already rendered: %v"`. -/
  | cannotDetermineRendered (err : ExtError)
  /-- The format `"Current store db version: %d greater than the current rkt
  expected version: %d"`. -/
  | dbVersionGreater (version dbVersion : Nat)
  deriving DecidableEq, Repr

/-! ## Data model -/

/-- The part of `schema.ImageManifest` the store reads. -/
structure ImageManifest where
  Name : GoString
  Labels : List Label
  deriving DecidableEq, Repr

/-- The method `types.Labels.Get`: the value of the first label called `name`. -/
def Labels.Get (l : List Label) (name : GoString) : GoString × Bool :=
  match l.find? (fun lbl => lbl.Name = name) with
  | some lbl => (lbl.Value, true)
  | none => ([], false)

/-- A row of the ACI-info table (`ACIInfo`); `ImportTime` is an instant. -/
structure ACIInfo where
  BlobKey : GoString
  AppName : GoString
  ImportTime : Int
  Latest : Bool
  deriving DecidableEq, Repr

/-- A row of the remote table (`Remote`). -/
structure Remote where
  ACIURL : GoString
  SigURL : GoString
  ETag : GoString
  BlobKey : GoString
  deriving DecidableEq, Repr

/-- Modelled from the spec: the metadata database (`store/db.go` is not among
the sources).  It holds the ACI-info table and the remote table, each as the
list of its rows. -/
structure DB where
  aciinfo : List ACIInfo
  remote : List Remote
  deriving DecidableEq, Repr

/-- Modelled from the spec: one content-addressed byte store of the `diskv`
library (not among the sources), a map from key to bytes held as an
association list. -/
abbrev Diskv := List (GoString × List Byte)

/-- The store on disk: the two diskv stores built from
`diskvStores = ["blob", "imageManifest"]` (indices `blobType` and
`imageManifestType`) and the database. -/
structure Store where
  blob : Diskv
  imageManifest : Diskv
  db : DB
  deriving DecidableEq, Repr

/-- What the environment decides during one call.  A field named `err...`
is the error an external operation fails with (`none`: it succeeds); the
others are the external libraries, taken as functions. -/
structure Env where
  /-- The call `lock.SharedKeyLock(s.imageLockDir, key)`. -/
  errSharedKeyLock : GoString → Option ExtError
  /-- The call `lock.ExclusiveKeyLock(s.imageLockDir, key)`. -/
  errExclusiveKeyLock : GoString → Option ExtError
  /-- Opening the database and beginning a transaction in `db.Do`. -/
  errBegin : Option ExtError
  /-- Committing the transaction in `db.Do`. -/
  errCommit : Option ExtError
  /-- The statement of `GetACIInfosWithKeyPrefix`. -/
  errGetACIInfosWithKeyPrefix : Option ExtError
  /-- The statement of `GetACIInfoWithBlobKey`. -/
  errGetACIInfoWithBlobKey : Option ExtError
  /-- The statement of `GetACIInfosWithAppName`. -/
  errGetACIInfosWithAppName : Option ExtError
  /-- The statements of `WriteACIInfo`. -/
  errWriteACIInfo : Option ExtError
  /-- The statement of `RemoveACIInfo`. -/
  errRemoveACIInfo : Option ExtError
  /-- The statement of `RemoveRemote`. -/
  errRemoveRemote : Option ExtError
  /-- Reading a key from the blob store (an I/O failure). -/
  errBlobRead : GoString → Option ExtError
  /-- Importing a file into the blob store. -/
  errBlobImport : GoString → Option ExtError
  /-- Erasing a key from the blob store. -/
  errBlobErase : GoString → Option ExtError
  /-- Reading a key from the manifest store (an I/O failure). -/
  errManifestRead : GoString → Option ExtError
  /-- Writing a key of the manifest store. -/
  errManifestWrite : GoString → Option ExtError
  /-- Erasing a key from the manifest store. -/
  errManifestErase : GoString → Option ExtError
  /-- The call `s.TmpFile()`. -/
  errTmpFile : Option ExtError
  /-- The call `io.Copy(fh, tr)` (writing the temporary file). -/
  errCopy : Option ExtError
  /-- The call `fh.Close()`. -/
  errClose : Option ExtError
  /-- The decompressed content of a stream (`aci.NewCompressedReader`). -/
  NewCompressedReader : List Byte → Except ExtError (List Byte)
  /-- The manifest inside an uncompressed image (`aci.ManifestFromImage`). -/
  ManifestFromImage : List Byte → Except ExtError ImageManifest
  /-- The sum of a `sha512.New()` hash fed with the given bytes. -/
  sha512 : List Byte → List Byte
  /-- The call `json.Marshal(im)`. -/
  Marshal : ImageManifest → Except ExtError (List Byte)
  /-- The call `json.Unmarshal(imj, &im)`. -/
  Unmarshal : List Byte → Except ExtError ImageManifest
  /-- The call `time.Now()`. -/
  Now : Int

/-! ## The diskv stores -/

/-- The error of reading a key that has no file. -/
def errNotExist : ExtError := ⟨"no such file or directory"⟩

/-- Modelled from the spec: `read(key)` and `read_stream(key)` of a diskv
store (the library is not among the sources): the bytes under `key`; it fails
on an I/O error (`err`) or when the key has no object. -/
def Diskv.Read (d : Diskv) (err : Option ExtError) (key : GoString) :
    Except ExtError (List Byte) :=
  match err with
  | some e => .error e
  | none =>
    match d.lookup key with
    | some v => .ok v
    | none => .error errNotExist

/-- Modelled from the spec: `write(key, bytes)` and `import(path, key, move)`
of a diskv store (the library is not among the sources): the object under
`key` becomes `val`; on an I/O error (`err`) the store is left as it was. -/
def Diskv.Write (d : Diskv) (err : Option ExtError) (key : GoString) (val : List Byte) :
    Diskv × Option ExtError :=
  match err with
  | some e => (d, some e)
  | none => ((key, val) :: d.filter (fun kv => kv.1 ≠ key), none)

/-- Modelled from the spec: `erase(key)` of a diskv store (the library is not
among the sources): the object under `key` is removed; on an error (`err`)
the store is left as it was. -/
def Diskv.Erase (d : Diskv) (err : Option ExtError) (key : GoString) :
    Diskv × Option ExtError :=
  match err with
  | some e => (d, some e)
  | none => (d.filter (fun kv => kv.1 ≠ key), none)

/-! ## The database -/

/-- An error of the environment, if there is one, before a computation. -/
def guardErr {α : Type} (err : Option ExtError) (k : Except Error α) : Except Error α :=
  match err with
  | some e => .error (.ext e)
  | none => k

/-- Modelled from the spec: the wrapper `db.Do` (`store/db.go` is not among
the sources): begin a transaction, run `fn` on it, commit if `fn` returned
success, otherwise roll back.  It returns the database afterwards and the
outcome; `fn` returns the value it hands to the caller and the changed
tables. -/
def DB.Do {α : Type} (env : Env) (db : DB) (fn : DB → Except Error (α × DB)) :
    DB × Except Error α :=
  match env.errBegin with
  | some e => (db, .error (.ext e))
  | none =>
    match fn db with
    | .error e => (db, .error e)
    | .ok (a, tx) =>
      match env.errCommit with
      | some e => (db, .error (.ext e))
      | none => (tx, .ok a)

/-- Modelled from the spec: `get_aci_info_by_prefix(prefix)`
(`GetACIInfosWithKeyPrefix` of `store/aciinfo.go`, not among the sources):
the ACI-info rows whose blob key begins with `pfx`. -/
def GetACIInfosWithKeyPrefix (env : Env) (tx : DB) (pfx : GoString) :
    Except Error (List ACIInfo) :=
  guardErr env.errGetACIInfosWithKeyPrefix
    (.ok (tx.aciinfo.filter (fun a => pfx.isPrefixOf a.BlobKey)))

/-- Modelled from the spec: `get_aci_info_by_blob(key)`
(`GetACIInfoWithBlobKey` of `store/aciinfo.go`, not among the sources): the
ACI-info row with that blob key, if there is one (`found`). -/
def GetACIInfoWithBlobKey (env : Env) (tx : DB) (key : GoString) :
    Except Error (Option ACIInfo) :=
  guardErr env.errGetACIInfoWithBlobKey
    (.ok (tx.aciinfo.find? (fun a => a.BlobKey = key)))

/-- Modelled from the spec: `get_aci_infos_by_app(name)`
(`GetACIInfosWithAppName` of `store/aciinfo.go`, not among the sources): the
ACI-info rows with that app name. -/
def GetACIInfosWithAppName (env : Env) (tx : DB) (name : GoString) :
    Except Error (List ACIInfo) :=
  guardErr env.errGetACIInfosWithAppName
    (.ok (tx.aciinfo.filter (fun a => a.AppName = name)))

/-- Modelled from the spec: `write_aci_info(record)`, an upsert keyed by
`blob_key` (`WriteACIInfo` of `store/aciinfo.go`, not among the sources). -/
def WriteACIInfo (env : Env) (tx : DB) (aciinfo : ACIInfo) : Except Error DB :=
  guardErr env.errWriteACIInfo
    (.ok { tx with
      aciinfo := tx.aciinfo.filter (fun a => a.BlobKey ≠ aciinfo.BlobKey) ++ [aciinfo] })

/-- Modelled from the spec: `remove_aci_info(key)` (`RemoveACIInfo` of
`store/aciinfo.go`, not among the sources): delete the ACI-info of `key`. -/
def RemoveACIInfo (env : Env) (tx : DB) (key : GoString) : Except Error DB :=
  guardErr env.errRemoveACIInfo
    (.ok { tx with aciinfo := tx.aciinfo.filter (fun a => a.BlobKey ≠ key) })

/-- Modelled from the spec: `remove_remote(key)` (`RemoveRemote` of
`store/remote.go`, not among the sources): delete the remote records keyed by
that blob. -/
def RemoveRemote (env : Env) (tx : DB) (key : GoString) : Except Error DB :=
  guardErr env.errRemoveRemote
    (.ok { tx with remote := tx.remote.filter (fun r => r.BlobKey ≠ key) })


/-! ## The facade (`store.go`) -/

/-- The method `Store.ResolveKey` (lines 230-259). -/
def Store.ResolveKey (env : Env) (s : Store) (key : GoString) : Except Error GoString :=
  if ¬ hashPrefix.isPrefixOf key then .error .wrongKeyPrefix
  else if key.length < minlenKey then .error .keyTooShort
  else
    let key := if key.length > lenKey then key.take lenKey else key
    match (s.db.Do env
        (fun tx => (GetACIInfosWithKeyPrefix env tx key).map (fun r => (r, tx)))).2 with
    | .error err => .error (.errorRetrievingACIInfos err)
    | .ok aciInfos =>
      let keyCount := aciInfos.length
      if keyCount = 0 then .error .ErrKeyNotFound
      else if keyCount ≠ 1 then .error (.ambiguousKey key)
      else
        match aciInfos[0]? with
        | some a => .ok a.BlobKey
        | none => .error .panic

/-- The method `Store.ReadStream` (lines 261-273); the reader it returns is
given by the bytes it reads. -/
def Store.ReadStream (env : Env) (s : Store) (key : GoString) : Except Error (List Byte) :=
  match s.ResolveKey env key with
  | .error err => .error (.errorResolvingKey err)
  | .ok key =>
    match env.errSharedKeyLock key with
    | some err => .error (.errorLockingImage err)
    | none =>
      match s.blob.Read (env.errBlobRead key) key with
      | .error err => .error (.ext err)
      | .ok bytes => .ok bytes

/-- The method `Store.GetImageManifest` (lines 495-515). -/
def Store.GetImageManifest (env : Env) (s : Store) (key : GoString) :
    Except Error ImageManifest :=
  match s.ResolveKey env key with
  | .error err => .error (.errorResolvingKey err)
  | .ok key =>
    match env.errSharedKeyLock key with
    | some err => .error (.errorLockingImage err)
    | none =>
      match s.imageManifest.Read (env.errManifestRead key) key with
      | .error err => .error (.errorRetrievingImageManifest err)
      | .ok imj =>
        match env.Unmarshal imj with
        | .error err => .error (.errorUnmarshallingImageManifest err)
        | .ok im => .ok im

/-- The method `Store.WriteACI` (lines 280-344): the store afterwards and the
result. -/
def Store.WriteACI (env : Env) (s : Store) (r : List Byte) (latest : Bool) :
    Store × Except Error GoString :=
  match env.NewCompressedReader r with
  | .error err => (s, .error (.errorDecompressingImage err))
  | .ok dr =>
  match env.errTmpFile with
  | some err => (s, .error (.errorCreatingImage err))
  | none =>
  match env.errCopy with
  | some err => (s, .error (.errorCopyingImage err))
  | none =>
  match env.ManifestFromImage dr with
  | .error err => (s, .error (.errorExtractingImageManifest err))
  | .ok im =>
  match env.errClose with
  | some err => (s, .error (.errorClosingImage err))
  | none =>
  match HashToKey (env.sha512 dr) with
  | none => (s, .error .panic)
  | some key =>
  match env.errExclusiveKeyLock key with
  | some err => (s, .error (.errorLockingImage err))
  | none =>
  match s.blob.Write (env.errBlobImport key) key dr with
  | (_, some err) => (s, .error (.errorImportingImage err))
  | (blob, none) =>
  let s := { s with blob := blob }
  match env.Marshal im with
  | .error err => (s, .error (.errorMarshallingImageManifest err))
  | .ok imj =>
  match s.imageManifest.Write (env.errManifestWrite key) key imj with
  | (_, some err) => (s, .error (.errorImportingImageManifest err))
  | (imageManifest, none) =>
  let s := { s with imageManifest := imageManifest }
  match s.db.Do env (fun tx =>
      let aciinfo : ACIInfo :=
        { BlobKey := key, AppName := im.Name, ImportTime := env.Now, Latest := latest }
      (WriteACIInfo env tx aciinfo).map (fun tx => ((), tx))) with
  | (_, .error err) => (s, .error (.errorWritingACIInfo err))
  | (db, .ok _) => ({ s with db := db }, .ok key)

/-- The transaction function of `Store.RemoveACI` (lines 360-374). -/
def RemoveACI.fn (env : Env) (key : GoString) (tx : DB) : Except Error (Unit × DB) :=
  match GetACIInfoWithBlobKey env tx key with
  | .error err => .error (.errorGettingAciinfo err)
  | .ok none => .error (.cannotFindImageWithKey key)
  | .ok (some _) =>
    match RemoveACIInfo env tx key with
    | .error err => .error err
    | .ok tx =>
      match RemoveRemote env tx key with
      | .error err => .error err
      | .ok tx => .ok ((), tx)

/-- The method `Store.RemoveACI` (lines 350-395): the store afterwards and the
error returned (`none` for `nil`). -/
def Store.RemoveACI (env : Env) (ds : Store) (key : GoString) : Store × Option Error :=
  match env.errExclusiveKeyLock key with
  | some err => (ds, some (.errorLockingImage err))
  | none =>
    match ds.db.Do env (RemoveACI.fn env key) with
    | (_, .error err) => (ds, some (.cannotRemoveImageFromDB key err))
    | (db, .ok _) =>
      let ds := { ds with db := db }
      let storeErrors : List ExtError := []
      -- `for _, s := range ds.stores`: the blob store, then the manifest store
      let (blob, err) := ds.blob.Erase (env.errBlobErase key) key
      let storeErrors := match err with
        | some err => storeErrors ++ [err]
        | none => storeErrors
      let (imageManifest, err) := ds.imageManifest.Erase (env.errManifestErase key) key
      let storeErrors := match err with
        | some err => storeErrors ++ [err]
        | none => storeErrors
      let ds := { ds with blob := blob, imageManifest := imageManifest }
      if storeErrors.length > 0 then (ds, some (.StoreRemovalError storeErrors))
      else (ds, none)

/-- The test of lines 547-559: the image manifest has all the requested
labels, each matched on name and value. -/
def hasAllLabels (labels : List Label) (im : ImageManifest) : Bool :=
  labels.all (fun l => im.Labels.any (fun rl => l.Name = rl.Name ∧ l.Value = rl.Value))

/-- The loop `nextKey` of `Store.GetACI` (lines 540-579), from the value of
`curaciinfo` before the remaining rows to its value after them. -/
def GetACI.loop (env : Env) (s : Store) (versionRequested : Bool) (labels : List Label) :
    List ACIInfo → Option ACIInfo → Except Error (Option ACIInfo)
  | [], curaciinfo => .ok curaciinfo
  | aciinfo :: rest, curaciinfo =>
    match s.GetImageManifest env aciinfo.BlobKey with
    | .error err => .error (.errorGettingImageManifest err)
    | .ok im =>
      if ¬ hasAllLabels labels im then
        GetACI.loop env s versionRequested labels rest curaciinfo
      else
        match curaciinfo with
        | some cur =>
          if ¬ versionRequested ∧ (¬ cur.Latest ∧ aciinfo.Latest) then
            GetACI.loop env s versionRequested labels rest (some aciinfo)
          else if ¬ versionRequested ∧ (cur.Latest ∧ ¬ aciinfo.Latest) then
            GetACI.loop env s versionRequested labels rest (some cur)
          else if aciinfo.ImportTime > cur.ImportTime then
            GetACI.loop env s versionRequested labels rest (some aciinfo)
          else
            GetACI.loop env s versionRequested labels rest (some cur)
        | none => GetACI.loop env s versionRequested labels rest (some aciinfo)

/-- The tag of the label that asks for a version. -/
def versionLabel : GoString := ['v', 'e', 'r', 's', 'i', 'o', 'n']

/-- The value of `curaciinfo` when the loop of `Store.GetACI` is over
(lines 523-579). -/
def GetACI.select (env : Env) (s : Store) (name : GoString) (labels : List Label) :
    Except Error (Option ACIInfo) :=
  let versionRequested := (Labels.Get labels versionLabel).2
  match (s.db.Do env
      (fun tx => (GetACIInfosWithAppName env tx name).map (fun r => (r, tx)))).2 with
  | .error err => .error err
  | .ok aciinfos => GetACI.loop env s versionRequested labels aciinfos none

/-- The method `Store.GetACI` (lines 523-585). -/
def Store.GetACI (env : Env) (s : Store) (name : GoString) (labels : List Label) :
    Except Error GoString :=
  match GetACI.select env s name labels with
  | .error err => .error err
  | .ok (some curaciinfo) => .ok curaciinfo.BlobKey
  | .ok none => .error (.cannotFindACI name labels)

/-- The manifest of image A of the example: version 1.0. -/
def Example.manifestA : ImageManifest where
  Name := ("example.com/app").toList
  Labels := [{ Name := ("version").toList, Value := ("1.0").toList }]

/-- The manifest of image B of the example: version 2.0. -/
def Example.manifestB : ImageManifest where
  Name := ("example.com/app").toList
  Labels := [{ Name := ("version").toList, Value := ("2.0").toList }]

/-- An environment in which no external operation fails; the libraries are
stand-ins: no compression, a sum of 64 copies of the first byte, and a
serialization that knows the two manifests of the example (`[1]` and `[2]`)
and takes any other bytes for a manifest without labels. -/
def Env.quiet : Env where
  errSharedKeyLock := fun _ => none
  errExclusiveKeyLock := fun _ => none
  errBegin := none
  errCommit := none
  errGetACIInfosWithKeyPrefix := none
  errGetACIInfoWithBlobKey := none
  errGetACIInfosWithAppName := none
  errWriteACIInfo := none
  errRemoveACIInfo := none
  errRemoveRemote := none
  errBlobRead := fun _ => none
  errBlobImport := fun _ => none
  errBlobErase := fun _ => none
  errManifestRead := fun _ => none
  errManifestWrite := fun _ => none
  errManifestErase := fun _ => none
  errTmpFile := none
  errCopy := none
  errClose := none
  NewCompressedReader := fun r => .ok r
  ManifestFromImage := fun _ => .ok { Name := ['a'], Labels := [] }
  sha512 := fun d => List.replicate 64 (d.headD 0)
  Marshal := fun im =>
    if im = Example.manifestA then .ok [1] else if im = Example.manifestB then .ok [2]
    else .ok []
  Unmarshal := fun imj =>
    if imj = [1] then .ok Example.manifestA else if imj = [2] then .ok Example.manifestB
    else .ok { Name := ['a'], Labels := [] }
  Now := 0

/-! ## Vocabulary of the statements -/

/-- The key-prefix query of `ResolveKey` goes through: the transaction
begins, the statement runs and the commit succeeds. -/
def Env.resolveOK (env : Env) : Prop :=
  env.errBegin = none ∧ env.errGetACIInfosWithKeyPrefix = none ∧ env.errCommit = none

/-- The key as `ResolveKey` looks it up: cut to its first `lenKey` characters
when it is longer. -/
def lookupKey (key : GoString) : GoString :=
  if key.length > lenKey then key.take lenKey else key

/-- The ACI-info rows of the store whose blob key begins with `p`. -/
def Store.rowsWithPrefix (s : Store) (p : GoString) : List ACIInfo :=
  s.db.aciinfo.filter (fun a => p.isPrefixOf a.BlobKey)

/-- The blob keys of the ACI-info rows are pairwise distinct full keys: each
is `lenKey` characters long and carries the tag. -/
def Store.fullKeys (s : Store) : Prop :=
  (s.db.aciinfo.map (fun a => a.BlobKey)).Nodup ∧
  ∀ a ∈ s.db.aciinfo, a.BlobKey.length = lenKey ∧ hashPrefix <+: a.BlobKey

/-- The app-name query of `GetACI` goes through: the transaction begins, the
statement runs and the commit succeeds. -/
def Env.appQueryOK (env : Env) : Prop :=
  env.errBegin = none ∧ env.errGetACIInfosWithAppName = none ∧ env.errCommit = none

/-- The manifest has every requested label, on name and on value. -/
def carriesAll (labels : List Label) (im : ImageManifest) : Prop :=
  ∀ l ∈ labels, ∃ rl ∈ im.Labels, l.Name = rl.Name ∧ l.Value = rl.Value

/-- A row passes the label filter of `GetACI`: its manifest, as
`GetImageManifest` reads it, has every requested label. -/
def Store.passes (env : Env) (s : Store) (labels : List Label) (a : ACIInfo) : Prop :=
  ∃ im, s.GetImageManifest env a.BlobKey = .ok im ∧ carriesAll labels im

/-- The order of preference of `GetACI` between two rows that pass the filter:
`c` is at least as good as `a`.  With a version requested, `c` was imported
no earlier; without, `c` is marked latest if `a` is, and was imported no
earlier if both carry the same flag. -/
def GetACI.atLeast (versionRequested : Bool) (c a : ACIInfo) : Prop :=
  (versionRequested = true → a.ImportTime ≤ c.ImportTime) ∧
  (versionRequested = false →
    (a.Latest = true → c.Latest = true) ∧ (a.Latest = c.Latest → a.ImportTime ≤ c.ImportTime))

/-! ## A small store, for concrete evaluation -/

/-- The full key `sha512-ab1000...0`. -/
def Example.keyA : GoString := hashPrefix ++ 'a' :: 'b' :: '1' :: List.replicate 61 '0'

/-- The full key `sha512-ab2000...0`. -/
def Example.keyB : GoString := hashPrefix ++ 'a' :: 'b' :: '2' :: List.replicate 61 '0'

/-- The app name `example.com/app`. -/
def Example.app : GoString := ("example.com/app").toList

/-- A store with two images of the same app: A (latest, imported at 1) under
`keyA` and B (not latest, imported at 2) under `keyB`. -/
def Example.store : Store where
  blob := [(Example.keyA, [10]), (Example.keyB, [20])]
  imageManifest := [(Example.keyA, [1]), (Example.keyB, [2])]
  db :=
    { aciinfo :=
        [ { BlobKey := Example.keyA, AppName := Example.app, ImportTime := 1, Latest := true },
          { BlobKey := Example.keyB, AppName := Example.app, ImportTime := 2, Latest := false } ]
      remote := [] }

/-- The quiet environment, except that erasing from the blob store fails. -/
def Example.envEraseFails : Env :=
  { Env.quiet with errBlobErase := fun _ => some ⟨"permission denied"⟩ }

/-- The quiet environment, except that the statement of `RemoveRemote`
fails. -/
def Example.envRemoteFails : Env :=
  { Env.quiet with errRemoveRemote := some ⟨"database is locked"⟩ }

/-- Every blob key present in the ACI-info table has an object under that key
in the blob store and in the manifest store. -/
def Store.objectsPresent (s : Store) : Prop :=
  ∀ a ∈ s.db.aciinfo,
    (s.blob.lookup a.BlobKey).isSome = true ∧ (s.imageManifest.lookup a.BlobKey).isSome = true

/-- The store `s2` has an object, in either diskv store, under every key
under which `s` has one. -/
def Store.keepsObjects (s s2 : Store) : Prop :=
  (∀ k, (s.blob.lookup k).isSome = true → (s2.blob.lookup k).isSome = true) ∧
  (∀ k, (s.imageManifest.lookup k).isSome = true → (s2.imageManifest.lookup k).isSome = true)

/-- Modelled from the spec: a tree-store entry (`store/tree.go` is not among
the sources): the rendered `rootfs`, the `hash` file with the digest of the
rendered contents, and whether the `rendered` marker, written last, is
there. -/
structure TreeEntry where
  rootfs : List Byte
  hash : List Byte
  rendered : Bool
  deriving DecidableEq, Repr

/-- Modelled from the spec: the tree store, one entry per rendered image key
(`TreeStore` of `store/tree.go`, not among the sources). -/
abbrev TreeStore := List (GoString × TreeEntry)

/-- A call of `RenderTreeStore` into the tree store. -/
inductive TreeCall where
  /-- The call `s.treestore.IsRendered(key)`. -/
  | IsRendered (key : GoString)
  /-- The call `s.treestore.Remove(key)`. -/
  | Remove (key : GoString)
  /-- The call `s.treestore.Write(key, &s)`. -/
  | Write (key : GoString)
  deriving DecidableEq, Repr

/-- What the environment decides during one call of `RenderTreeStore`: the
errors of the external operations (`none`: success) and the external
renderer with the digest of what it renders. -/
structure TreeEnv where
  /-- The call `lock.ExclusiveKeyLock(s.treeStoreLockDir, key)`. -/
  errTreeStoreLock : GoString → Option ExtError
  /-- Looking for the `rendered` marker. -/
  errIsRendered : GoString → Option ExtError
  /-- Deleting the entry. -/
  errRemove : GoString → Option ExtError
  /-- The external renderer: the tree of an image key over a store. -/
  Render : Store → GoString → Except ExtError (List Byte)
  /-- The integrity digest of a rendered tree. -/
  Hash : List Byte → List Byte

/-- Modelled from the spec: `is_rendered(K)` of the tree store (not among the
sources): the `rendered` marker exists. -/
def TreeStore.IsRendered (ts : TreeStore) (err : Option ExtError) (key : GoString) :
    Except ExtError Bool :=
  match err with
  | some e => .error e
  | none =>
    match ts.lookup key with
    | some entry => .ok entry.rendered
    | none => .ok false

/-- Modelled from the spec: `remove(K)` of the tree store (not among the
sources): delete the entry; idempotent.  On an error the tree store is left as
it was. -/
def TreeStore.Remove (ts : TreeStore) (err : Option ExtError) (key : GoString) :
    TreeStore × Option ExtError :=
  match err with
  | some e => (ts, some e)
  | none => (ts.filter (fun kv => kv.1 ≠ key), none)

/-- Modelled from the spec: `write(K, store_handle)` of the tree store (not
among the sources): invoke the external renderer, write the digest to `hash`,
write the `rendered` marker last.  A failed render leaves an entry without the
marker. -/
def TreeStore.Write (tenv : TreeEnv) (ts : TreeStore) (key : GoString) (s : Store) :
    TreeStore × Option ExtError :=
  match tenv.Render s key with
  | .error e =>
    ((key, { rootfs := [], hash := [], rendered := false }) ::
      ts.filter (fun kv => kv.1 ≠ key), some e)
  | .ok rootfs =>
    ((key, { rootfs := rootfs, hash := tenv.Hash rootfs, rendered := true }) ::
      ts.filter (fun kv => kv.1 ≠ key), none)

/-- The method `Store.RenderTreeStore` (lines 401-431): the tree store
afterwards, the calls made into the tree store, in order, and the error
returned (`none` for `nil`). -/
def Store.RenderTreeStore (tenv : TreeEnv) (s : Store) (ts : TreeStore) (key : GoString)
    (rebuild : Bool) : TreeStore × List TreeCall × Option Error :=
  match tenv.errTreeStoreLock key with
  | some err => (ts, [], some (.errorLockingTreeStore err))
  | none =>
    let render (calls : List TreeCall) : TreeStore × List TreeCall × Option Error :=
      match ts.Remove (tenv.errRemove key) key with
      | (ts, some err) => (ts, calls ++ [.Remove key], some (.ext err))
      | (ts, none) =>
        match ts.Write tenv key s with
        | (ts, some err) => (ts, calls ++ [.Remove key, .Write key], some (.ext err))
        | (ts, none) => (ts, calls ++ [.Remove key, .Write key], none)
    if ¬ rebuild then
      match ts.IsRendered (tenv.errIsRendered key) key with
      | .error err => (ts, [.IsRendered key], some (.cannotDetermineRendered err))
      | .ok rendered =>
        if rendered then (ts, [.IsRendered key], none)
        else render [.IsRendered key]
    else render []

/-- How often the calls render: the number of `Write` calls. -/
def TreeCall.writes (calls : List TreeCall) (key : GoString) : Nat :=
  calls.count (.Write key)

/-- How often the calls remove the tree of `key`. -/
def TreeCall.removes (calls : List TreeCall) (key : GoString) : Nat :=
  calls.count (.Remove key)

/-- A tree environment in which nothing fails; the renderer returns the blob
of the image and the digest is the tree itself. -/
def TreeEnv.quiet : TreeEnv where
  errTreeStoreLock := fun _ => none
  errIsRendered := fun _ => none
  errRemove := fun _ => none
  Render := fun s key =>
    match s.blob.lookup key with
    | some v => .ok v
    | none => .error ⟨"no such image"⟩
  Hash := fun t => t

/-- A tree store in which the tree of image A of the example is rendered. -/
def Example.treeRendered : TreeStore :=
  [(Example.keyA, { rootfs := [10], hash := [10], rendered := true })]

/-! ## Opening the store (`NewStore`) -/

/-- The mode in which an instance holds the whole-store lock. -/
inductive LockMode where
  | unlocked
  | shared
  | exclusive
  deriving DecidableEq, Repr

/-- What `NewStore` finds under `base`: the stored schema version of the
database (`none`: the database is not populated) and the versions kept under
`cas/db-backups`, newest first. -/
structure Base where
  version : Option Nat
  backups : List (Option Nat)
  deriving DecidableEq, Repr

/-- A step of `NewStore` on the whole store. -/
inductive OpenCall where
  /-- The call `s.storeLock.ExclusiveLock()`. -/
  | ExclusiveLock
  /-- The call `s.backupDB()`. -/
  | backupDB
  /-- The call `migrate(tx, dbVersion)`, inside its transaction. -/
  | migrate (dbVersion : Nat)
  deriving DecidableEq, Repr

/-- What the environment decides during one call of `NewStore`: the constant
`dbVersion` of the package (its declaration is not among the sources) and the
errors of the external operations (`none`: success). -/
structure OpenEnv where
  /-- The target schema version `dbVersion`. -/
  dbVersion : Nat
  /-- The call `os.MkdirAll(s.imageLockDir, defaultPathPerm)`. -/
  errMkdirImageLocks : Option ExtError
  /-- The call `os.MkdirAll(s.treeStoreLockDir, defaultPathPerm)`. -/
  errMkdirTreeStoreLocks : Option ExtError
  /-- The call `lock.NewLock(casDir, lock.Dir)`. -/
  errNewLock : Option ExtError
  /-- The call `NewDB(...)`. -/
  errNewDB : Option ExtError
  /-- Beginning a transaction in `db.Do`. -/
  errBegin : Option ExtError
  /-- Committing a transaction in `db.Do`. -/
  errCommit : Option ExtError
  /-- The query of `dbIsPopulated`. -/
  errIsPopulated : Option ExtError
  /-- The statements `dbCreateStmts`. -/
  errCreate : Option ExtError
  /-- The query of `getDBVersion`. -/
  errGetDBVersion : Option ExtError
  /-- The call `s.storeLock.ExclusiveLock()`. -/
  errExclusiveLock : Option ExtError
  /-- The call `createBackup(...)`. -/
  errBackup : Option ExtError
  /-- The statements of `migrate`. -/
  errMigrate : Option ExtError

/-- How many backups to keep when migrating: `backupsNumber = 5`. -/
def backupsNumber : Nat := 5

/-- Modelled from the spec: the wrapper `db.Do` on the schema of the database
(`store/db.go` is not among the sources): begin, run `fn`, commit if it
returned success, otherwise roll back. -/
def Base.Do {α : Type} (env : OpenEnv) (base : Base) (fn : Base → Except Error (α × Base)) :
    Base × Except Error α :=
  match env.errBegin with
  | some e => (base, .error (.ext e))
  | none =>
    match fn base with
    | .error e => (base, .error e)
    | .ok (a, tx) =>
      match env.errCommit with
      | some e => (base, .error (.ext e))
      | none => (tx, .ok a)

/-- Modelled from the spec: `dbIsPopulated` (not among the sources): whether
the schema tables exist. -/
def dbIsPopulated (env : OpenEnv) (tx : Base) : Except Error Bool :=
  match env.errIsPopulated with
  | some e => .error (.ext e)
  | none => .ok tx.version.isSome

/-- Modelled from the spec: `getDBVersion` (not among the sources): the stored
schema version of a populated database. -/
def getDBVersion (env : OpenEnv) (tx : Base) : Except Error Nat :=
  match env.errGetDBVersion with
  | some e => .error (.ext e)
  | none => .ok (tx.version.getD 0)

/-- Modelled from the spec: `migrate` (not among the sources): run the
migration steps up to the target version; a database already there is left
as it is. -/
def migrate (env : OpenEnv) (tx : Base) (target : Nat) : Except Error Base :=
  match env.errMigrate with
  | some e => .error (.ext e)
  | none => .ok { tx with version := some (max (tx.version.getD 0) target) }

/-- Modelled from the spec: `createBackup` (not among the sources): copy the
database into a new backup and retain at most `limit` backups. -/
def createBackup (env : OpenEnv) (base : Base) (limit : Nat) : Base × Option ExtError :=
  match env.errBackup with
  | some e => (base, some e)
  | none => ({ base with backups := (base.version :: base.backups).take limit }, none)

/-- The first transaction function of `NewStore` (lines 143-171): the value
of `needsMigrate` and the database afterwards. -/
def NewStore.fn (env : OpenEnv) (tx : Base) : Except Error (Bool × Base) :=
  match dbIsPopulated env tx with
  | .error err => .error err
  | .ok ok =>
    if ¬ ok then
      match env.errCreate with
      | some err => .error (.ext err)
      | none => .ok (false, { tx with version := some env.dbVersion })
    else
      match getDBVersion env tx with
      | .error err => .error err
      | .ok version =>
        let needsMigrate := decide (version < env.dbVersion)
        if version > env.dbVersion then .error (.dbVersionGreater version env.dbVersion)
        else .ok (needsMigrate, tx)

/-- What a call of `NewStore` leaves: the base, the mode in which the
instance holds the whole-store lock, and the steps it took on the whole
store, in order. -/
structure Opened where
  base : Base
  storeLock : LockMode
  calls : List OpenCall
  deriving DecidableEq, Repr

/-- The function `NewStore` (lines 102-199): what it leaves and the error it
returns (`none`: it returns the store).  Modelled from the spec: the call
`lock.NewLock` of line 123 (the lock package is not among the sources) takes
the whole-store lock shared, as the comment of line 122 says. -/
def NewStore (env : OpenEnv) (base : Base) : Opened × Option Error :=
  match env.errMkdirImageLocks with
  | some err => (⟨base, .unlocked, []⟩, some (.ext err))
  | none =>
  match env.errMkdirTreeStoreLocks with
  | some err => (⟨base, .unlocked, []⟩, some (.ext err))
  | none =>
  match env.errNewLock with
  | some err => (⟨base, .unlocked, []⟩, some (.ext err))
  | none =>
  match env.errNewDB with
  | some err => (⟨base, .shared, []⟩, some (.ext err))
  | none =>
  match base.Do env (NewStore.fn env) with
  | (base, .error err) => (⟨base, .shared, []⟩, some err)
  | (base, .ok needsMigrate) =>
  if needsMigrate then
    match env.errExclusiveLock with
    | some err => (⟨base, .shared, [.ExclusiveLock]⟩, some (.ext err))
    | none =>
    match createBackup env base backupsNumber with
    | (base, some err) => (⟨base, .exclusive, [.ExclusiveLock, .backupDB]⟩, some (.ext err))
    | (base, none) =>
    match base.Do env (fun tx => (migrate env tx env.dbVersion).map (fun tx => ((), tx))) with
    | (base, .error err) =>
      (⟨base, .exclusive, [.ExclusiveLock, .backupDB, .migrate env.dbVersion]⟩, some err)
    | (base, .ok _) =>
      (⟨base, .exclusive, [.ExclusiveLock, .backupDB, .migrate env.dbVersion]⟩, none)
  else (⟨base, .shared, []⟩, none)

/-- An environment of `NewStore` in which nothing fails, with target schema
version 2. -/
def OpenEnv.quiet : OpenEnv where
  dbVersion := 2
  errMkdirImageLocks := none
  errMkdirTreeStoreLocks := none
  errNewLock := none
  errNewDB := none
  errBegin := none
  errCommit := none
  errIsPopulated := none
  errCreate := none
  errGetDBVersion := none
  errExclusiveLock := none
  errBackup := none
  errMigrate := none

/-- The preliminaries of `NewStore` succeed and its first transaction reads
the database: the directories, the lock file and the database are opened,
and the transaction begins, runs its queries and commits. -/
def OpenEnv.opens (env : OpenEnv) : Prop :=
  env.errMkdirImageLocks = none ∧ env.errMkdirTreeStoreLocks = none ∧ env.errNewLock = none ∧
  env.errNewDB = none ∧ env.errBegin = none ∧ env.errCommit = none ∧
  env.errIsPopulated = none ∧ env.errGetDBVersion = none

/-- A base whose database is populated at schema version 1, without
backups. -/
def Example.baseV1 : Base := { version := some 1, backups := [] }

/-! ## The image lock of `ReadStream` -/

/-- A step of `ReadStream` that takes, uses or releases the shared image lock
of a key. -/
inductive LockStep where
  /-- The call `lock.SharedKeyLock(s.imageLockDir, key)` returned the lock. -/
  | SharedKeyLock (key : GoString)
  /-- The call `s.stores[blobType].ReadStream(key, false)`, which opens the
  reader. -/
  | ReadStream (key : GoString)
  /-- The deferred call `keyLock.Close()`. -/
  | Close (key : GoString)
  deriving DecidableEq, Repr

/-- The shared image locks the process holds after some steps, from the locks
`held` before them: `SharedKeyLock` adds the key, `Close` gives it back. -/
def LockStep.held (held : List GoString) : List LockStep → List GoString
  | [] => held
  | .SharedKeyLock key :: steps => LockStep.held (key :: held) steps
  | .ReadStream _ :: steps => LockStep.held held steps
  | .Close key :: steps => LockStep.held (held.erase key) steps

/-- The method `Store.ReadStream` (lines 261-273) with its steps on the image
lock made explicit: the steps taken until the function has returned, in
order, and the result.  The deferred `keyLock.Close()` of line 270 runs after
the return value of line 272 is computed and before the caller gets it. -/
def Store.ReadStreamLocks (env : Env) (s : Store) (key : GoString) :
    List LockStep × Except Error (List Byte) :=
  match s.ResolveKey env key with
  | .error err => ([], .error (.errorResolvingKey err))
  | .ok key =>
    match env.errSharedKeyLock key with
    | some err => ([], .error (.errorLockingImage err))
    | none =>
      let steps := [LockStep.SharedKeyLock key]
      let ret : Except Error (List Byte) :=
        match s.blob.Read (env.errBlobRead key) key with
        | .error err => .error (.ext err)
        | .ok bytes => .ok bytes
      let steps := steps ++ [LockStep.ReadStream key]
      (steps ++ [LockStep.Close key], ret)

/-- The full key `sha512-ab3000...0`. -/
def Example.keyC : GoString := hashPrefix ++ 'a' :: 'b' :: '3' :: List.replicate 61 '0'

/-- The row of the first rival: latest, imported at 1. -/
def Example.rowA : ACIInfo :=
  { BlobKey := Example.keyA, AppName := Example.app, ImportTime := 1, Latest := true }

/-- The row of the second rival: latest, imported at 3. -/
def Example.rowB : ACIInfo :=
  { BlobKey := Example.keyB, AppName := Example.app, ImportTime := 3, Latest := true }

/-- The row of the third rival: not latest, imported at 5. -/
def Example.rowC : ACIInfo :=
  { BlobKey := Example.keyC, AppName := Example.app, ImportTime := 5, Latest := false }

/-- The label `version=1.0`. -/
def Example.version1 : Label := { Name := versionLabel, Value := ("1.0").toList }

/-- A store with three rival images of the same app, all with the manifest of
version 1.0: two marked latest (imported at 1 and at 3) and one not (imported
at 5). -/
def Example.rivals : Store where
  blob := [(Example.keyA, [10]), (Example.keyC, [30]), (Example.keyB, [20])]
  imageManifest := [(Example.keyA, [1]), (Example.keyC, [1]), (Example.keyB, [1])]
  db := { aciinfo := [Example.rowA, Example.rowC, Example.rowB], remote := [] }

end Rkt

namespace Rkt

/-! ## Key derivation: proofs -/

theorem hexDigit_isLowerHex (n : Nat) (h : n < 16) : isLowerHex (hexDigit n) = true := by
  interval_cases n <;> decide

theorem hexEncode_length (k : List Byte) : (hexEncode k).length = 2 * k.length := by
  induction k with
  | nil => rfl
  | cons b k ih => simp [hexEncode, hexByte, ih]; omega

theorem hexEncode_isLowerHex (k : List Byte) : ∀ c ∈ hexEncode k, isLowerHex c = true := by
  induction k with
  | nil => simp [hexEncode]
  | cons b k ih =>
    intro c hc
    simp only [hexEncode, hexByte, List.mem_append, List.mem_cons, List.mem_singleton,
      List.not_mem_nil, or_false] at hc
    rcases hc with (rfl | rfl) | hc
    · exact hexDigit_isLowerHex _ (by omega)
    · exact hexDigit_isLowerHex _ (by omega)
    · exact ih c hc

theorem hexEncode_take (k : List Byte) (n : Nat) :
    (hexEncode k).take (2 * n) = hexEncode (k.take n) := by
  induction k generalizing n with
  | nil => simp [hexEncode]
  | cons b k ih =>
    cases n with
    | zero => simp [hexEncode]
    | succ n =>
      have h2 : 2 * (n + 1) = (2 * n) + 2 := by ring
      simp only [hexEncode, hexByte, List.take_succ_cons, h2, List.cons_append,
        List.nil_append, ih]

/-- The value of `keyToString` on a 64-byte digest. -/
theorem keyToString_eq (k : List Byte) (hk : k.length = 64) :
    keyToString k = some (hashPrefix ++ hexEncode (k.take 32)) := by
  have h1 : (hexEncode k).length = 128 := by rw [hexEncode_length, hk]
  have h7 : hashPrefix.length = 7 := rfl
  have hle : lenKey ≤ (hashPrefix ++ hexEncode k).length := by
    rw [List.length_append, h1]; decide
  have hK : lenKey = 71 := rfl
  simp only [keyToString, hk, lenHash, ne_eq, not_true_eq_false, if_false, slice,
    Nat.zero_le, true_and, hle, if_true, List.drop_zero]
  rw [hK, List.take_append_eq_append_take, h7]
  have : List.take 71 hashPrefix = hashPrefix := by
    apply List.take_of_length_le; rw [h7]; omega
  rw [this, ← hexEncode_take k 32]

/-- C1: for every 64-byte digest `k`, `keyToString k` (and hence `HashToKey`)
returns the 71-character string made of the tag `sha512-` followed by exactly
64 lowercase hexadecimal characters, the hex encoding of the first 32 bytes
of `k`. -/
theorem keyToString_spec (k : List Byte) (hk : k.length = 64) :
    keyToString k = some (hashPrefix ++ hexEncode (k.take 32)) ∧
    HashToKey k = keyToString k ∧
    (hashPrefix ++ hexEncode (k.take 32)).length = 71 ∧
    (hexEncode (k.take 32)).length = 64 ∧
    ∀ c ∈ hexEncode (k.take 32), isLowerHex c = true := by
  have hlen : (hexEncode (k.take 32)).length = 64 := by
    rw [hexEncode_length, List.length_take, hk]; rfl
  refine ⟨keyToString_eq k hk, rfl, ?_, hlen, hexEncode_isLowerHex _⟩
  rw [List.length_append, hlen]; rfl

/-- C1, at the digest whose bytes are `0, 1, ..., 63`. -/
theorem keyToString_spec_witness :
    ((List.range 64).map (Fin.ofNat : Nat → Byte)).length = 64 ∧
    keyToString ((List.range 64).map (Fin.ofNat : Nat → Byte)) =
      some ("sha512-000102030405060708090a0b0c0d0e0f101112131415161718191a1b1c1d1e1f").toList :=
  ⟨by decide, (keyToString_spec _ (by decide)).1.trans (by decide)⟩

/-! ## Prefix resolution: proofs -/

theorem lookupKey_eq_take (key : GoString) : lookupKey key = key.take lenKey := by
  unfold lookupKey
  split
  · rfl
  · rw [List.take_of_length_le (by omega)]

/-- The query of `ResolveKey` returns the rows whose blob key begins with the
looked-up key, when the database does not fail. -/
theorem query_rowsWithPrefix (env : Env) (s : Store) (p : GoString) (hq : env.resolveOK) :
    (s.db.Do env
      (fun tx => (GetACIInfosWithKeyPrefix env tx p).map (fun r => (r, tx)))).2 =
      .ok (s.rowsWithPrefix p) := by
  obtain ⟨h1, h2, h3⟩ := hq
  simp [DB.Do, GetACIInfosWithKeyPrefix, guardErr, h1, h2, h3, Except.map,
    Store.rowsWithPrefix]

/-- The outcome of `ResolveKey` on a key that passes the two checks, in terms
of the rows the query returns. -/
theorem ResolveKey_accepted (env : Env) (s : Store) (key : GoString)
    (htag : hashPrefix <+: key) (hlen : minlenKey ≤ key.length) (hq : env.resolveOK) :
    s.ResolveKey env key =
      match s.rowsWithPrefix (lookupKey key) with
      | [] => .error .ErrKeyNotFound
      | [a] => .ok a.BlobKey
      | _ :: _ :: _ => .error (.ambiguousKey (lookupKey key)) := by
  have h1 : hashPrefix.isPrefixOf key = true := List.isPrefixOf_iff_prefix.mpr htag
  have h2 : ¬ key.length < minlenKey := by omega
  unfold Store.ResolveKey
  simp only [h1, not_true_eq_false, if_false, h2]
  have hk : (if key.length > lenKey then key.take lenKey else key) = lookupKey key := rfl
  rw [hk, query_rowsWithPrefix env s _ hq]
  rcases hrows : s.rowsWithPrefix (lookupKey key) with _ | ⟨a, _ | ⟨b, rest⟩⟩ <;> simp

/-- C2: for a key that passes the validity checks, `ResolveKey` is determined
by the ACI-info rows whose blob key begins with `p`, the key cut to its first
71 characters when it is longer: one matching row gives that row's blob key,
none gives `ErrKeyNotFound`, more than one gives the ambiguous-key error
(the database query being answered). -/
theorem ResolveKey_by_matching_rows (env : Env) (s : Store) (key : GoString)
    (htag : hashPrefix <+: key) (hlen : 9 ≤ key.length) (hq : env.resolveOK) :
    (∀ a, s.db.aciinfo.filter (fun r => (key.take 71).isPrefixOf r.BlobKey) = [a] →
        s.ResolveKey env key = .ok a.BlobKey) ∧
    (s.db.aciinfo.filter (fun r => (key.take 71).isPrefixOf r.BlobKey) = [] →
        s.ResolveKey env key = .error .ErrKeyNotFound) ∧
    (1 < (s.db.aciinfo.filter (fun r => (key.take 71).isPrefixOf r.BlobKey)).length →
        s.ResolveKey env key = .error (.ambiguousKey (key.take 71))) := by
  have h := ResolveKey_accepted env s key htag hlen hq
  rw [lookupKey_eq_take] at h
  have hK : lenKey = 71 := rfl
  rw [hK] at h
  unfold Store.rowsWithPrefix at h
  refine ⟨fun a ha => ?_, fun h0 => ?_, fun h2 => ?_⟩
  · rw [h, ha]
  · rw [h, h0]
  · rw [h]
    rcases hrows : s.db.aciinfo.filter (fun r => (key.take 71).isPrefixOf r.BlobKey)
      with _ | ⟨a, _ | ⟨b, rest⟩⟩
    · rw [hrows] at h2; simp at h2
    · rw [hrows] at h2; simp at h2
    · rw [hrows]

/-- C2, at the store of the example: `sha512-ab1` matches one row and resolves
to its key. -/
theorem ResolveKey_by_matching_rows_witness :
    Example.store.ResolveKey Env.quiet ("sha512-ab1").toList = .ok Example.keyA :=
  (ResolveKey_by_matching_rows Env.quiet Example.store ("sha512-ab1").toList
    (by decide) (by decide) ⟨rfl, rfl, rfl⟩).1
    { BlobKey := Example.keyA, AppName := Example.app, ImportTime := 1, Latest := true }
    (by decide)

/-- C3: `ResolveKey` rejects a key without querying the database exactly when
the key lacks the tag `sha512-` (error "wrong key prefix", the first check) or
is shorter than 9 characters (error "key too short"): these results hold
whatever the database would answer, even when it fails; `sha512-` alone is too
short; and a key with the tag and at least 9 characters is looked up, so that
a failure of the database is what the call reports. -/
theorem ResolveKey_rejects_iff (env : Env) (s : Store) (key : GoString) :
    (¬ hashPrefix <+: key → s.ResolveKey env key = .error .wrongKeyPrefix) ∧
    (hashPrefix <+: key → key.length < 9 → s.ResolveKey env key = .error .keyTooShort) ∧
    ((s.ResolveKey env key = .error .wrongKeyPrefix ∨
        s.ResolveKey env key = .error .keyTooShort) ↔
      (¬ hashPrefix <+: key ∨ key.length < 9)) ∧
    s.ResolveKey env hashPrefix = .error .keyTooShort ∧
    (hashPrefix <+: key → 9 ≤ key.length → ∀ e, env.errBegin = some e →
      s.ResolveKey env key = .error (.errorRetrievingACIInfos (.ext e))) := by
  have hmin : minlenKey = 9 := rfl
  have hA : ¬ hashPrefix <+: key → s.ResolveKey env key = .error .wrongKeyPrefix := by
    intro h
    have h1 : ¬ hashPrefix.isPrefixOf key = true := fun c => h (List.isPrefixOf_iff_prefix.mp c)
    simp [Store.ResolveKey, h1]
  have hB : ∀ k : GoString, hashPrefix <+: k → k.length < 9 →
      s.ResolveKey env k = .error .keyTooShort := by
    intro k h hl
    have h1 : hashPrefix.isPrefixOf k = true := List.isPrefixOf_iff_prefix.mpr h
    simp [Store.ResolveKey, h1, hmin, hl]
  refine ⟨hA, hB key, ⟨fun h => ?_, fun h => ?_⟩,
    hB hashPrefix (List.prefix_refl _) (by decide), fun h hl e he => ?_⟩
  · by_contra hc
    push_neg at hc
    obtain ⟨ht, hl⟩ := hc
    have h1 : hashPrefix.isPrefixOf key = true := List.isPrefixOf_iff_prefix.mpr ht
    have h2 : ¬ key.length < minlenKey := by omega
    unfold Store.ResolveKey at h
    simp only [h1, not_true_eq_false, if_false, h2] at h
    split at h
    · simp at h
    · split at h
      · simp at h
      · split at h
        · simp at h
        · split at h <;> simp at h
  · by_cases ht : hashPrefix <+: key
    · rcases h with h | h
      · exact absurd ht h
      · exact Or.inr (hB key ht h)
    · exact Or.inl (hA ht)
  · have h1 : hashPrefix.isPrefixOf key = true := List.isPrefixOf_iff_prefix.mpr h
    have h2 : ¬ key.length < minlenKey := by omega
    simp [Store.ResolveKey, h1, h2, DB.Do, he]

/-! ## Stores whose blob keys are distinct full keys -/

theorem filter_blobKey_eq_singleton (l : List ACIInfo)
    (hnd : (l.map (fun a => a.BlobKey)).Nodup) (a : ACIInfo) (ha : a ∈ l) :
    l.filter (fun r => r.BlobKey = a.BlobKey) = [a] := by
  induction l with
  | nil => simp at ha
  | cons x xs ih =>
    rw [List.map_cons, List.nodup_cons] at hnd
    obtain ⟨hx, hxs⟩ := hnd
    rcases List.mem_cons.mp ha with rfl | hmem
    · have hnone : xs.filter (fun r => r.BlobKey = a.BlobKey) = [] := by
        rw [List.filter_eq_nil_iff]
        intro r hr hc
        apply hx
        have : r.BlobKey = a.BlobKey := by simpa using hc
        rw [← this]
        exact List.mem_map_of_mem _ hr
      simp [List.filter_cons, hnone]
    · have hne : ¬ x.BlobKey = a.BlobKey := by
        intro hc
        apply hx
        rw [hc]
        exact List.mem_map_of_mem (fun a => a.BlobKey) hmem
      simp [List.filter_cons, hne, ih hxs hmem]

theorem filter_blobKey_eq_nil (l : List ACIInfo) (K : GoString)
    (h : ∀ r ∈ l, r.BlobKey ≠ K) : l.filter (fun r => r.BlobKey = K) = [] := by
  rw [List.filter_eq_nil_iff]
  intro r hr hc
  exact h r hr (by simpa using hc)

/-- In a store of full keys, the rows whose blob key begins with a full-length
string are the rows whose blob key is that string. -/
theorem rowsWithPrefix_full (s : Store) (hs : s.fullKeys) (K : GoString)
    (hK : K.length = lenKey) :
    s.rowsWithPrefix K = s.db.aciinfo.filter (fun r => r.BlobKey = K) := by
  unfold Store.rowsWithPrefix
  apply List.filter_congr
  intro r hr
  have hl := (hs.2 r hr).1
  by_cases h : r.BlobKey = K
  · simp [h]
  · have : ¬ K <+: r.BlobKey := fun hp => h (hp.eq_of_length (by omega)).symm
    have h2 : K.isPrefixOf r.BlobKey = false := by
      rw [Bool.eq_false_iff]; intro c; exact this (List.isPrefixOf_iff_prefix.mp c)
    simp [h, h2]

theorem lookupKey_of_le (key : GoString) (h : key.length ≤ lenKey) : lookupKey key = key := by
  unfold lookupKey
  rw [if_neg (by omega)]

/-- C4: in a store whose ACI-info rows have pairwise distinct full-length
tagged blob keys, for every stored key `K` and every prefix `P` of `K` with at
least 9 characters, `ResolveKey P` returns `K` or fails with the ambiguous-key
error, and `ResolveKey K` returns `K` (the database query being answered). -/
theorem ResolveKey_prefix_of_stored (env : Env) (s : Store) (hs : s.fullKeys)
    (hq : env.resolveOK) (a : ACIInfo) (ha : a ∈ s.db.aciinfo) (P : GoString)
    (hP : P <+: a.BlobKey) (hlen : 9 ≤ P.length) :
    (s.ResolveKey env P = .ok a.BlobKey ∨ s.ResolveKey env P = .error (.ambiguousKey P)) ∧
    s.ResolveKey env a.BlobKey = .ok a.BlobKey := by
  obtain ⟨hKlen, hKtag⟩ := hs.2 a ha
  have h71 : lenKey = 71 := rfl
  have h7 : hashPrefix.length = 7 := rfl
  have hmin : minlenKey = 9 := rfl
  constructor
  · have hPtag : hashPrefix <+: P :=
      List.prefix_of_prefix_length_le hKtag hP (by omega)
    have hPle : P.length ≤ lenKey := by rw [← hKlen]; exact hP.length_le
    have h := ResolveKey_accepted env s P hPtag (by omega) hq
    rw [lookupKey_of_le P hPle] at h
    have hmem : a ∈ s.rowsWithPrefix P := by
      unfold Store.rowsWithPrefix
      rw [List.mem_filter]
      exact ⟨ha, List.isPrefixOf_iff_prefix.mpr hP⟩
    rcases hrows : s.rowsWithPrefix P with _ | ⟨x, _ | ⟨y, rest⟩⟩
    · rw [hrows] at hmem; simp at hmem
    · rw [hrows] at hmem h
      have : a = x := by simpa using hmem
      subst this
      exact Or.inl h
    · rw [hrows] at h
      exact Or.inr h
  · have h := ResolveKey_accepted env s a.BlobKey hKtag (by omega) hq
    rw [lookupKey_of_le _ (by omega), rowsWithPrefix_full s hs _ hKlen,
      filter_blobKey_eq_singleton _ hs.1 a ha] at h
    exact h

theorem Example.store_fullKeys : Example.store.fullKeys := by
  refine ⟨by decide, ?_⟩
  intro a ha
  have : a ∈ Example.store.db.aciinfo := ha
  simp only [Example.store, List.mem_cons, List.mem_singleton, List.not_mem_nil, or_false] at this
  rcases this with rfl | rfl
  · exact ⟨by decide, by decide⟩
  · exact ⟨by decide, by decide⟩

/-- C4, at the store of the example: the prefix `sha512-ab`, shared by both
keys, is ambiguous, and the full key of image A resolves to itself. -/
theorem ResolveKey_prefix_of_stored_witness :
    (Example.store.ResolveKey Env.quiet ("sha512-ab").toList = .ok Example.keyA ∨
      Example.store.ResolveKey Env.quiet ("sha512-ab").toList =
        .error (.ambiguousKey ("sha512-ab").toList)) ∧
    Example.store.ResolveKey Env.quiet Example.keyA = .ok Example.keyA :=
  ResolveKey_prefix_of_stored Env.quiet Example.store Example.store_fullKeys ⟨rfl, rfl, rfl⟩
    { BlobKey := Example.keyA, AppName := Example.app, ImportTime := 1, Latest := true }
    (by decide) ("sha512-ab").toList (by decide) (by decide)

/-! ## Ingest and read back: proofs -/

/-- What a successful `WriteACI` did: the stream decompressed to `dr`, `dr`
carries a manifest, the key is the key of the sum of `dr`, and the store
afterwards holds `dr` under the key in the blob store, the serialized manifest
under the key in the manifest store, and one ACI-info row for the key. -/
theorem WriteACI_ok_inv (env : Env) (s s2 : Store) (r : List Byte) (latest : Bool)
    (k : GoString) (hw : s.WriteACI env r latest = (s2, .ok k)) :
    ∃ dr im imj, env.NewCompressedReader r = .ok dr ∧ env.ManifestFromImage dr = .ok im ∧
      keyToString (env.sha512 dr) = some k ∧ env.Marshal im = .ok imj ∧
      s2.blob = (k, dr) :: s.blob.filter (fun kv => kv.1 ≠ k) ∧
      s2.imageManifest = (k, imj) :: s.imageManifest.filter (fun kv => kv.1 ≠ k) ∧
      s2.db.aciinfo = s.db.aciinfo.filter (fun a => a.BlobKey ≠ k) ++
        [{ BlobKey := k, AppName := im.Name, ImportTime := env.Now, Latest := latest }] ∧
      s2.db.remote = s.db.remote := by
  unfold Store.WriteACI at hw
  split at hw
  · simp at hw
  rename_i dr hdr
  split at hw
  · simp at hw
  split at hw
  · simp at hw
  split at hw
  · simp at hw
  rename_i im him
  split at hw
  · simp at hw
  split at hw
  · simp at hw
  rename_i key hkey
  split at hw
  · simp at hw
  rename_i hlock
  split at hw
  · simp at hw
  rename_i blob hblob
  simp only at hw
  split at hw
  · simp at hw
  rename_i imj himj
  split at hw
  · simp at hw
  rename_i imageManifest hman
  split at hw
  · simp at hw
  rename_i db u hdb
  simp only [Prod.mk.injEq, Except.ok.injEq] at hw
  obtain ⟨hs2, hk⟩ := hw
  subst hk
  subst hs2
  refine ⟨dr, im, imj, hdr, him, hkey, himj, ?_, ?_, ?_, ?_⟩
  · simp only [Diskv.Write] at hblob
    split at hblob <;> simp_all
  · simp only [Diskv.Write] at hman
    split at hman <;> simp_all
  · simp only [DB.Do, WriteACIInfo, guardErr] at hdb
    split at hdb
    · simp at hdb
    · split at hdb
      · simp at hdb
      · rename_i a tx hfn
        split at hdb
        · simp at hdb
        · simp only [Prod.mk.injEq, Except.ok.injEq] at hdb
          split at hfn
          · simp [Except.map] at hfn
          · simp only [Except.map, Except.ok.injEq, Prod.mk.injEq] at hfn
            rw [← hdb.1, ← hfn.2]
  · simp only [DB.Do, WriteACIInfo, guardErr] at hdb
    split at hdb
    · simp at hdb
    · split at hdb
      · simp at hdb
      · rename_i a tx hfn
        split at hdb
        · simp at hdb
        · simp only [Prod.mk.injEq, Except.ok.injEq] at hdb
          split at hfn
          · simp [Except.map] at hfn
          · simp only [Except.map, Except.ok.injEq, Prod.mk.injEq] at hfn
            rw [← hdb.1, ← hfn.2]

/-- A key made by `keyToString` is a full key: `lenKey` characters, tagged. -/
theorem keyToString_some (d : List Byte) (k : GoString) (h : keyToString d = some k) :
    k.length = lenKey ∧ hashPrefix <+: k := by
  have hd : d.length = 64 := by
    by_contra hc
    have hne : d.length ≠ lenHash := hc
    simp [keyToString, hne] at h
  rw [keyToString_eq d hd] at h
  have hk : k = hashPrefix ++ hexEncode (d.take 32) := (Option.some.inj h).symm
  subst hk
  refine ⟨?_, List.prefix_append _ _⟩
  rw [List.length_append, hexEncode_length, List.length_take, hd]; rfl

/-- A successful `WriteACI` keeps every blob key of the ACI-info table at the
full length. -/
theorem WriteACI_keeps_full_length (env : Env) (s s2 : Store) (r : List Byte)
    (latest : Bool) (k : GoString) (hs : ∀ a ∈ s.db.aciinfo, a.BlobKey.length = lenKey)
    (hw : s.WriteACI env r latest = (s2, .ok k)) :
    ∀ a ∈ s2.db.aciinfo, a.BlobKey.length = lenKey := by
  obtain ⟨dr, im, imj, -, -, hkey, -, -, -, hrows, -⟩ :=
    WriteACI_ok_inv env s s2 r latest k hw
  intro a ha
  rw [hrows, List.mem_append, List.mem_filter, List.mem_singleton] at ha
  rcases ha with ha | rfl
  · exact hs a ha.1
  · exact (keyToString_some _ _ hkey).1

/-- C5: if `WriteACI` succeeds with key `k` on a stream, then the stream
decompresses to some bytes `dr` carrying a manifest, `k` is `keyToString` of
the SHA-512 sum of `dr`, and a following `ReadStream k` on the store left by
the write returns exactly `dr` (in a store whose blob keys are full-length
keys, the read meeting no I/O failure). -/
theorem WriteACI_ReadStream (env env2 : Env) (s s2 : Store) (r : List Byte) (latest : Bool)
    (k : GoString) (hs : ∀ a ∈ s.db.aciinfo, a.BlobKey.length = lenKey)
    (hw : s.WriteACI env r latest = (s2, .ok k))
    (hq : env2.resolveOK) (hlock : env2.errSharedKeyLock k = none)
    (hread : env2.errBlobRead k = none) :
    ∃ dr, env.NewCompressedReader r = .ok dr ∧
      keyToString (env.sha512 dr) = some k ∧
      s2.ReadStream env2 k = .ok dr := by
  obtain ⟨dr, im, imj, hdr, -, hkey, -, hblob, -, hrows, -⟩ :=
    WriteACI_ok_inv env s s2 r latest k hw
  refine ⟨dr, hdr, hkey, ?_⟩
  obtain ⟨hklen, hktag⟩ := keyToString_some _ _ hkey
  have hmin : minlenKey = 9 := rfl
  have h71 : lenKey = 71 := rfl
  have hres : s2.ResolveKey env2 k = .ok k := by
    have h := ResolveKey_accepted env2 s2 k hktag (by omega) hq
    rw [lookupKey_of_le k (by omega)] at h
    have hrw : s2.rowsWithPrefix k =
        [{ BlobKey := k, AppName := im.Name, ImportTime := env.Now, Latest := latest }] := by
      unfold Store.rowsWithPrefix
      rw [hrows, List.filter_append]
      have hold : (s.db.aciinfo.filter (fun a => a.BlobKey ≠ k)).filter
          (fun a => k.isPrefixOf a.BlobKey) = [] := by
        rw [List.filter_eq_nil_iff]
        intro a ha hc
        rw [List.mem_filter] at ha
        have hp : k <+: a.BlobKey := List.isPrefixOf_iff_prefix.mp hc
        have hl := hs a ha.1
        have : k = a.BlobKey := hp.eq_of_length (by omega)
        simp [this] at ha
      rw [hold]
      simp
    rw [hrw] at h
    exact h
  have hlook : s2.blob.lookup k = some dr := by
    rw [hblob]; simp [List.lookup]
  simp [Store.ReadStream, hres, hlock, hread, Diskv.Read, hlook]

/-- An ingest in the quiet environment: the one-byte stream `[0]` into the
empty store. -/
theorem Example.write_empty :
    (Store.WriteACI Env.quiet { blob := [], imageManifest := [], db := ⟨[], []⟩ } [0] true) =
      ({ blob := [(hashPrefix ++ List.replicate 64 '0', [0])],
         imageManifest := [(hashPrefix ++ List.replicate 64 '0', [])],
         db := ⟨[{ BlobKey := hashPrefix ++ List.replicate 64 '0', AppName := ['a'],
                   ImportTime := 0, Latest := true }], []⟩ },
       .ok (hashPrefix ++ List.replicate 64 '0')) := by
  rfl

/-- C5, at the empty store and the one-byte stream `[0]`. -/
theorem WriteACI_ReadStream_witness :
    ∃ dr, Env.quiet.NewCompressedReader [0] = .ok dr ∧
      keyToString (Env.quiet.sha512 dr) = some (hashPrefix ++ List.replicate 64 '0') ∧
      Store.ReadStream Env.quiet
        { blob := [(hashPrefix ++ List.replicate 64 '0', [0])],
          imageManifest := [(hashPrefix ++ List.replicate 64 '0', [])],
          db := ⟨[{ BlobKey := hashPrefix ++ List.replicate 64 '0', AppName := ['a'],
                    ImportTime := 0, Latest := true }], []⟩ }
        (hashPrefix ++ List.replicate 64 '0') = .ok dr :=
  WriteACI_ReadStream Env.quiet Env.quiet _ _ [0] true _ (by simp) Example.write_empty
    ⟨rfl, rfl, rfl⟩ rfl rfl

/-! ## Query by name and labels: proofs -/

theorem hasAllLabels_iff (labels : List Label) (im : ImageManifest) :
    hasAllLabels labels im = true ↔ carriesAll labels im := by
  simp [hasAllLabels, carriesAll, List.all_eq_true, List.any_eq_true]

theorem GetACI.atLeast_refl (vr : Bool) (a : ACIInfo) : GetACI.atLeast vr a a :=
  ⟨fun _ => le_refl _, fun _ => ⟨fun h => h, fun _ => le_refl _⟩⟩

theorem GetACI.atLeast_trans (vr : Bool) (c b a : ACIInfo)
    (h1 : GetACI.atLeast vr c b) (h2 : GetACI.atLeast vr b a) : GetACI.atLeast vr c a := by
  refine ⟨fun hv => le_trans (h2.1 hv) (h1.1 hv), fun hv => ?_⟩
  obtain ⟨hb1, hb2⟩ := h1.2 hv
  obtain ⟨ha1, ha2⟩ := h2.2 hv
  refine ⟨fun h => hb1 (ha1 h), fun h => ?_⟩
  cases hal : a.Latest
  · have hcl : c.Latest = false := by rw [← h, hal]
    have hbl : b.Latest = false := by
      cases hb : b.Latest
      · rfl
      · rw [hb1 hb] at hcl; exact absurd hcl (by simp)
    exact le_trans (ha2 (by rw [hal, hbl])) (hb2 (by rw [hbl, hcl]))
  · have hbl : b.Latest = true := ha1 hal
    have hcl : c.Latest = true := hb1 hbl
    exact le_trans (ha2 (by rw [hal, hbl])) (hb2 (by rw [hbl, hcl]))

/-- One turn of the loop of `GetACI` on a row that passes the filter: the new
`curaciinfo` is the row or the old value, and is at least as good as both. -/
theorem GetACI.loop_cons_pass (env : Env) (s : Store) (vr : Bool) (labels : List Label)
    (a : ACIInfo) (rest : List ACIInfo) (cur : Option ACIInfo) (im : ImageManifest)
    (him : s.GetImageManifest env a.BlobKey = .ok im) (hp : hasAllLabels labels im = true) :
    ∃ c, GetACI.loop env s vr labels (a :: rest) cur = GetACI.loop env s vr labels rest (some c) ∧
      (c = a ∨ cur = some c) ∧ GetACI.atLeast vr c a ∧
      ∀ c0, cur = some c0 → GetACI.atLeast vr c c0 := by
  cases cur with
  | none =>
    refine ⟨a, ?_, Or.inl rfl, GetACI.atLeast_refl vr a, fun c0 h => by simp at h⟩
    simp [GetACI.loop, him, hp]
  | some cur =>
    have hloop : GetACI.loop env s vr labels (a :: rest) (some cur) =
        if ¬ (vr = true) ∧ (¬ (cur.Latest = true) ∧ a.Latest = true) then
          GetACI.loop env s vr labels rest (some a)
        else if ¬ (vr = true) ∧ (cur.Latest = true ∧ ¬ (a.Latest = true)) then
          GetACI.loop env s vr labels rest (some cur)
        else if a.ImportTime > cur.ImportTime then
          GetACI.loop env s vr labels rest (some a)
        else
          GetACI.loop env s vr labels rest (some cur) := by
      simp only [GetACI.loop, him, hp, not_true_eq_false, if_false]
    rw [hloop]
    by_cases h1 : ¬ (vr = true) ∧ (¬ (cur.Latest = true) ∧ a.Latest = true)
    · refine ⟨a, ?_, Or.inl rfl, GetACI.atLeast_refl vr a, fun c0 h => ?_⟩
      · rw [if_pos h1]
      · have : cur = c0 := by simpa using h
        subst this
        obtain ⟨hv, hc, ha⟩ := h1
        refine ⟨fun h => absurd h hv, fun _ => ⟨fun h => absurd h hc, fun h => ?_⟩⟩
        rw [ha] at h; exact absurd h hc
    · by_cases h2 : ¬ (vr = true) ∧ (cur.Latest = true ∧ ¬ (a.Latest = true))
      · refine ⟨cur, ?_, Or.inr rfl, ?_, fun c0 h => ?_⟩
        · rw [if_neg h1, if_pos h2]
        · obtain ⟨hv, hc, ha⟩ := h2
          refine ⟨fun h => absurd h hv, fun _ => ⟨fun h => absurd h ha, fun h => ?_⟩⟩
          rw [hc] at h; exact absurd h ha
        · have : cur = c0 := by simpa using h
          subst this
          exact GetACI.atLeast_refl vr cur
      · have hflag : vr = false → a.Latest = cur.Latest := by
          intro hv
          subst hv
          cases ha : a.Latest <;> cases hc : cur.Latest <;> simp_all
        by_cases h3 : a.ImportTime > cur.ImportTime
        · refine ⟨a, ?_, Or.inl rfl, GetACI.atLeast_refl vr a, fun c0 h => ?_⟩
          · rw [if_neg h1, if_neg h2, if_pos h3]
          · have : cur = c0 := by simpa using h
            subst this
            refine ⟨fun _ => le_of_lt h3, fun hv => ⟨fun h => ?_, fun _ => le_of_lt h3⟩⟩
            rw [hflag hv]; exact h
        · refine ⟨cur, ?_, Or.inr rfl, ?_, fun c0 h => ?_⟩
          · rw [if_neg h1, if_neg h2, if_neg h3]
          · refine ⟨fun _ => not_lt.mp h3, fun hv => ⟨fun h => ?_, fun _ => not_lt.mp h3⟩⟩
            rw [← hflag hv]; exact h
          · have : cur = c0 := by simpa using h
            subst this
            exact GetACI.atLeast_refl vr cur

/-- The loop of `GetACI`, when it ends without error: the final `curaciinfo`
is at least as good as the initial one and as every row that passes the
filter, and it is the initial one or a row that passes the filter. -/
theorem GetACI.loop_spec (env : Env) (s : Store) (vr : Bool) (labels : List Label)
    (rows : List ACIInfo) (cur res : Option ACIInfo)
    (h : GetACI.loop env s vr labels rows cur = .ok res) :
    (∀ c0, cur = some c0 → ∃ c, res = some c ∧ GetACI.atLeast vr c c0) ∧
    (∀ a ∈ rows, s.passes env labels a → ∃ c, res = some c ∧ GetACI.atLeast vr c a) ∧
    (∀ c, res = some c → cur = some c ∨ (c ∈ rows ∧ s.passes env labels c)) := by
  induction rows generalizing cur with
  | nil =>
    have hres : cur = res := by simpa [GetACI.loop] using h
    subst hres
    exact ⟨fun c0 h0 => ⟨c0, h0, GetACI.atLeast_refl vr c0⟩, fun a ha => by simp at ha,
      fun c hc => Or.inl hc⟩
  | cons a rest ih =>
    rcases him : s.GetImageManifest env a.BlobKey with err | im
    · simp [GetACI.loop, him] at h
    · by_cases hp : hasAllLabels labels im = true
      · have hpass : s.passes env labels a := ⟨im, him, (hasAllLabels_iff labels im).mp hp⟩
        obtain ⟨c1, heq, hor, hca, hc0⟩ :=
          GetACI.loop_cons_pass env s vr labels a rest cur im him hp
        rw [heq] at h
        obtain ⟨i1, i2, i3⟩ := ih (some c1) h
        obtain ⟨c, hc, hcc1⟩ := i1 c1 rfl
        refine ⟨fun c0 h0 => ⟨c, hc, GetACI.atLeast_trans vr c c1 c0 hcc1 (hc0 c0 h0)⟩,
          fun a1 ha1 hp1 => ?_, fun c2 hc2 => ?_⟩
        · rcases List.mem_cons.mp ha1 with rfl | hmem
          · exact ⟨c, hc, GetACI.atLeast_trans vr c c1 a1 hcc1 hca⟩
          · exact i2 a1 hmem hp1
        · rcases i3 c2 hc2 with h3 | ⟨h3, h4⟩
          · have h5 : c1 = c2 := by simpa using h3
            subst h5
            rcases hor with rfl | hcur
            · exact Or.inr ⟨List.mem_cons_self _ _, hpass⟩
            · exact Or.inl hcur
          · exact Or.inr ⟨List.mem_cons_of_mem _ h3, h4⟩
      · have hnp : ¬ s.passes env labels a := by
          rintro ⟨im1, him1, hc1⟩
          rw [him] at him1
          have : im = im1 := by simpa using him1
          subst this
          exact hp ((hasAllLabels_iff labels im).mpr hc1)
        have heq : GetACI.loop env s vr labels (a :: rest) cur =
            GetACI.loop env s vr labels rest cur := by
          simp only [GetACI.loop, him, hp, Bool.false_eq_true, not_false_eq_true, if_true]
        rw [heq] at h
        obtain ⟨i1, i2, i3⟩ := ih cur h
        refine ⟨i1, fun a1 ha1 hp1 => ?_, fun c2 hc2 => ?_⟩
        · rcases List.mem_cons.mp ha1 with rfl | hmem
          · exact absurd hp1 hnp
          · exact i2 a1 hmem hp1
        · rcases i3 c2 hc2 with h3 | ⟨h3, h4⟩
          · exact Or.inl h3
          · exact Or.inr ⟨List.mem_cons_of_mem _ h3, h4⟩

/-- The loop of `GetACI` ends without error when the manifest of every row
can be read. -/
theorem GetACI.loop_total (env : Env) (s : Store) (vr : Bool) (labels : List Label)
    (rows : List ACIInfo) (cur : Option ACIInfo)
    (hman : ∀ a ∈ rows, ∃ im, s.GetImageManifest env a.BlobKey = .ok im) :
    ∃ res, GetACI.loop env s vr labels rows cur = .ok res := by
  induction rows generalizing cur with
  | nil => exact ⟨cur, rfl⟩
  | cons a rest ih =>
    obtain ⟨im, him⟩ := hman a (List.mem_cons_self _ _)
    have hrest : ∀ a ∈ rest, ∃ im, s.GetImageManifest env a.BlobKey = .ok im :=
      fun b hb => hman b (List.mem_cons_of_mem _ hb)
    by_cases hp : hasAllLabels labels im = true
    · obtain ⟨c1, heq, -, -, -⟩ := GetACI.loop_cons_pass env s vr labels a rest cur im him hp
      rw [heq]
      exact ih (some c1) hrest
    · have heq : GetACI.loop env s vr labels (a :: rest) cur =
          GetACI.loop env s vr labels rest cur := by
        simp only [GetACI.loop, him, hp, Bool.false_eq_true, not_false_eq_true, if_true]
      rw [heq]
      exact ih cur hrest

/-- When `GetACI` gets past its query, the rows it loops over are the rows
with the requested app name. -/
theorem GetACI.select_inv (env : Env) (s : Store) (name : GoString) (labels : List Label)
    (res : Option ACIInfo) (h : GetACI.select env s name labels = .ok res) :
    GetACI.loop env s (Labels.Get labels versionLabel).2 labels
      (s.db.aciinfo.filter (fun a => a.AppName = name)) none = .ok res := by
  unfold GetACI.select at h
  rcases h1 : env.errBegin with _ | e1
  · rcases h2 : env.errGetACIInfosWithAppName with _ | e2
    · rcases h3 : env.errCommit with _ | e3
      · simpa [DB.Do, GetACIInfosWithAppName, guardErr, h1, h2, h3, Except.map] using h
      · simp [DB.Do, GetACIInfosWithAppName, guardErr, h1, h2, h3, Except.map] at h
    · simp [DB.Do, GetACIInfosWithAppName, guardErr, h1, h2, Except.map] at h
  · simp [DB.Do, h1] at h

theorem GetACI.select_of_ok (env : Env) (s : Store) (name : GoString) (labels : List Label)
    (hq : env.appQueryOK) :
    GetACI.select env s name labels =
      GetACI.loop env s (Labels.Get labels versionLabel).2 labels
        (s.db.aciinfo.filter (fun a => a.AppName = name)) none := by
  obtain ⟨h1, h2, h3⟩ := hq
  simp [GetACI.select, DB.Do, GetACIInfosWithAppName, guardErr, h1, h2, h3, Except.map]

theorem GetACI_ok_inv (env : Env) (s : Store) (name : GoString) (labels : List Label)
    (key : GoString) (h : s.GetACI env name labels = .ok key) :
    ∃ c, GetACI.select env s name labels = .ok (some c) ∧ c.BlobKey = key := by
  unfold Store.GetACI at h
  split at h
  · simp at h
  · rename_i c hc
    exact ⟨c, hc, by simpa using h⟩
  · simp at h

theorem Labels.Get_false_iff (labels : List Label) (name : GoString) :
    (Labels.Get labels name).2 = false ↔ ∀ l ∈ labels, l.Name ≠ name := by
  unfold Labels.Get
  split
  · rename_i lbl h
    have hm := List.mem_of_find?_eq_some h
    have hn := List.find?_some h
    simp only [Bool.true_eq_false, false_iff, not_forall]
    exact ⟨lbl, hm, fun hc => hc (by simpa using hn)⟩
  · rename_i h
    rw [List.find?_eq_none] at h
    simp only [true_iff]
    intro l hl hc
    exact h l hl (by simpa using hc)

theorem mem_filter_appName (s : Store) (name : GoString) (a : ACIInfo) :
    a ∈ s.db.aciinfo.filter (fun a => a.AppName = name) ↔
      a ∈ s.db.aciinfo ∧ a.AppName = name := by
  simp [List.mem_filter]

/-- What a successful `GetACI` selected: a row with the requested app name
that passes the filter and is at least as good as every such row. -/
theorem GetACI_ok_spec (env : Env) (s : Store) (name : GoString) (labels : List Label)
    (key : GoString) (h : s.GetACI env name labels = .ok key) :
    ∃ c, GetACI.select env s name labels = .ok (some c) ∧ c.BlobKey = key ∧
      c ∈ s.db.aciinfo ∧ c.AppName = name ∧ s.passes env labels c ∧
      ∀ a ∈ s.db.aciinfo, a.AppName = name → s.passes env labels a →
        GetACI.atLeast (Labels.Get labels versionLabel).2 c a := by
  obtain ⟨c, hsel, hkey⟩ := GetACI_ok_inv env s name labels key h
  have hloop := GetACI.select_inv env s name labels (some c) hsel
  obtain ⟨-, i2, i3⟩ := GetACI.loop_spec env s _ labels _ none (some c) hloop
  rcases i3 c rfl with h3 | ⟨hmem, hpass⟩
  · simp at h3
  · rw [mem_filter_appName] at hmem
    refine ⟨c, hsel, hkey, hmem.1, hmem.2, hpass, fun a ha hn hp => ?_⟩
    obtain ⟨c1, hc1, hat⟩ := i2 a ((mem_filter_appName s name a).mpr ⟨ha, hn⟩) hp
    have : c = c1 := by simpa using hc1
    subst this
    exact hat

/-- C6: whenever `GetACI name labels` succeeds, the returned key is the blob
key of the selected ACI-info, a row whose app name is `name` and whose image
manifest contains every requested label, matched on label name and label
value; so a candidate missing one requested pair is never the one returned. -/
theorem GetACI_returns_matching (env : Env) (s : Store) (name : GoString)
    (labels : List Label) (key : GoString) (h : s.GetACI env name labels = .ok key) :
    ∃ a, GetACI.select env s name labels = .ok (some a) ∧ a ∈ s.db.aciinfo ∧
      a.BlobKey = key ∧ a.AppName = name ∧
      ∃ im, s.GetImageManifest env a.BlobKey = .ok im ∧
        ∀ l ∈ labels, ∃ rl ∈ im.Labels, l.Name = rl.Name ∧ l.Value = rl.Value := by
  obtain ⟨c, hsel, hkey, hmem, hname, hpass, -⟩ := GetACI_ok_spec env s name labels key h
  exact ⟨c, hsel, hmem, hkey, hname, hpass⟩

/-- The query for version 2.0 of the app of the example returns image B. -/
theorem Example.getACI_version2 :
    Example.store.GetACI Env.quiet Example.app
      [{ Name := versionLabel, Value := ("2.0").toList }] = .ok Example.keyB := by
  rfl

/-- C6, at the store of the example: the query for version 2.0 selects a row
with the app name whose manifest has the label. -/
theorem GetACI_returns_matching_witness :
    ∃ a, GetACI.select Env.quiet Example.store Example.app
        [{ Name := versionLabel, Value := ("2.0").toList }] = .ok (some a) ∧
      a ∈ Example.store.db.aciinfo ∧ a.BlobKey = Example.keyB ∧ a.AppName = Example.app ∧
      ∃ im, Example.store.GetImageManifest Env.quiet a.BlobKey = .ok im ∧
        ∀ l ∈ [({ Name := versionLabel, Value := ("2.0").toList } : Label)],
          ∃ rl ∈ im.Labels, l.Name = rl.Name ∧ l.Value = rl.Value :=
  GetACI_returns_matching Env.quiet Example.store Example.app
    [{ Name := versionLabel, Value := ("2.0").toList }] Example.keyB Example.getACI_version2

/-- C7: for a query whose labels have no label named `version`, if a
candidate that passes the label filter is marked latest, then the image
`GetACI` returns is marked latest, whatever the import times. -/
theorem GetACI_prefers_latest (env : Env) (s : Store) (name : GoString)
    (labels : List Label) (key : GoString) (hv : ∀ l ∈ labels, l.Name ≠ versionLabel)
    (h : s.GetACI env name labels = .ok key) (a : ACIInfo) (ha : a ∈ s.db.aciinfo)
    (hn : a.AppName = name) (hp : s.passes env labels a) (hl : a.Latest = true) :
    ∃ c, GetACI.select env s name labels = .ok (some c) ∧ c.BlobKey = key ∧
      c.Latest = true := by
  obtain ⟨c, hsel, hkey, -, -, -, hbest⟩ := GetACI_ok_spec env s name labels key h
  have hvr : (Labels.Get labels versionLabel).2 = false :=
    (Labels.Get_false_iff labels versionLabel).mpr hv
  exact ⟨c, hsel, hkey, ((hbest a ha hn hp).2 hvr).1 hl⟩

/-- The query without labels for the app of the example returns image A. -/
theorem Example.getACI_nolabels :
    Example.store.GetACI Env.quiet Example.app [] = .ok Example.keyA := by
  rfl

/-- C7, at the store of the example: without labels, image A (latest,
imported at 1) is returned although image B (not latest) was imported at 2. -/
theorem GetACI_prefers_latest_witness :
    ∃ c, GetACI.select Env.quiet Example.store Example.app [] = .ok (some c) ∧
      c.BlobKey = Example.keyA ∧ c.Latest = true :=
  GetACI_prefers_latest Env.quiet Example.store Example.app [] Example.keyA
    (by simp) Example.getACI_nolabels
    { BlobKey := Example.keyA, AppName := Example.app, ImportTime := 1, Latest := true }
    (by decide) rfl ⟨Example.manifestA, rfl, by simp [carriesAll]⟩ rfl

/-- C8: for a successful `GetACI`, no candidate that passes the label filter
and competes with the returned image was imported strictly later: with a
`version` label requested the returned image has the greatest import time of
all filtered candidates, and without one it has the greatest import time of
the filtered candidates carrying the same latest flag. -/
theorem GetACI_latest_import (env : Env) (s : Store) (name : GoString)
    (labels : List Label) (key : GoString) (h : s.GetACI env name labels = .ok key) :
    ∃ c, GetACI.select env s name labels = .ok (some c) ∧ c.BlobKey = key ∧
      ∀ a ∈ s.db.aciinfo, a.AppName = name → s.passes env labels a →
        ((∃ l ∈ labels, l.Name = versionLabel) → a.ImportTime ≤ c.ImportTime) ∧
        ((∀ l ∈ labels, l.Name ≠ versionLabel) → a.Latest = c.Latest →
          a.ImportTime ≤ c.ImportTime) := by
  obtain ⟨c, hsel, hkey, -, -, -, hbest⟩ := GetACI_ok_spec env s name labels key h
  refine ⟨c, hsel, hkey, fun a ha hn hp => ⟨fun hex => ?_, fun hall hflag => ?_⟩⟩
  · have hvr : (Labels.Get labels versionLabel).2 = true := by
      cases hb : (Labels.Get labels versionLabel).2
      · obtain ⟨l, hl, hln⟩ := hex
        exact absurd hln ((Labels.Get_false_iff labels versionLabel).mp hb l hl)
      · rfl
    exact (hbest a ha hn hp).1 hvr
  · have hvr : (Labels.Get labels versionLabel).2 = false :=
      (Labels.Get_false_iff labels versionLabel).mpr hall
    exact ((hbest a ha hn hp).2 hvr).2 hflag

/-- Every row of the rivals passes the filter of a query for version 1.0. -/
theorem Example.rivals_pass_version1 (a : ACIInfo) (ha : a ∈ Example.rivals.db.aciinfo) :
    Example.rivals.passes Env.quiet [Example.version1] a := by
  have hc : carriesAll [Example.version1] Example.manifestA := by
    intro l hl
    rw [List.mem_singleton] at hl
    subst hl
    exact ⟨_, List.mem_singleton_self _, rfl, rfl⟩
  have : a ∈ [Example.rowA, Example.rowC, Example.rowB] := ha
  simp only [List.mem_cons, List.mem_singleton, List.not_mem_nil, or_false] at this
  rcases this with rfl | rfl | rfl
  · exact ⟨Example.manifestA, rfl, hc⟩
  · exact ⟨Example.manifestA, rfl, hc⟩
  · exact ⟨Example.manifestA, rfl, hc⟩

/-- Every row of the rivals passes the filter of a query without labels. -/
theorem Example.rivals_pass_nolabels (a : ACIInfo) (ha : a ∈ Example.rivals.db.aciinfo) :
    Example.rivals.passes Env.quiet [] a := by
  have hc : carriesAll [] Example.manifestA := fun l hl => absurd hl (List.not_mem_nil l)
  have : a ∈ [Example.rowA, Example.rowC, Example.rowB] := ha
  simp only [List.mem_cons, List.mem_singleton, List.not_mem_nil, or_false] at this
  rcases this with rfl | rfl | rfl
  · exact ⟨Example.manifestA, rfl, hc⟩
  · exact ⟨Example.manifestA, rfl, hc⟩
  · exact ⟨Example.manifestA, rfl, hc⟩

/-- C8, at the store of the three rivals, where every row passes the filter.
With version 1.0 requested the row imported last of all three is selected
(imported at 5, not latest), the two others having passed the filter with an
earlier import time.  Without labels the latest row imported at 3 is
selected: the other latest row, imported at 1, passed the filter with the same
flag and an earlier import time, and the row imported at 5 does not compete,
its flag being different. -/
theorem GetACI_latest_import_witness :
    (∃ c, GetACI.select Env.quiet Example.rivals Example.app [Example.version1] =
        .ok (some c) ∧ c = Example.rowC ∧
      Example.rivals.passes Env.quiet [Example.version1] Example.rowA ∧
      Example.rowA.ImportTime ≤ c.ImportTime ∧
      Example.rivals.passes Env.quiet [Example.version1] Example.rowB ∧
      Example.rowB.ImportTime ≤ c.ImportTime) ∧
    (∃ c, GetACI.select Env.quiet Example.rivals Example.app [] = .ok (some c) ∧
      c = Example.rowB ∧
      Example.rivals.passes Env.quiet [] Example.rowA ∧
      Example.rowA.Latest = c.Latest ∧ Example.rowA.ImportTime ≤ c.ImportTime ∧
      Example.rivals.passes Env.quiet [] Example.rowC ∧
      Example.rowC.Latest ≠ c.Latest ∧ c.ImportTime < Example.rowC.ImportTime) := by
  have hA : Example.rowA ∈ Example.rivals.db.aciinfo := List.mem_cons_self _ _
  have hB : Example.rowB ∈ Example.rivals.db.aciinfo := by
    exact List.mem_cons_of_mem _ (List.mem_cons_of_mem _ (List.mem_singleton_self _))
  have hC : Example.rowC ∈ Example.rivals.db.aciinfo :=
    List.mem_cons_of_mem _ (List.mem_cons_self _ _)
  constructor
  · obtain ⟨c, hsel, -, hall⟩ := GetACI_latest_import Env.quiet Example.rivals Example.app
      [Example.version1] Example.keyC rfl
    have hsel2 : GetACI.select Env.quiet Example.rivals Example.app [Example.version1] =
        .ok (some Example.rowC) := rfl
    have hc : c = Example.rowC := by
      rw [hsel2] at hsel
      exact (Option.some.inj (Except.ok.inj hsel)).symm
    have hv : ∃ l ∈ [Example.version1], l.Name = versionLabel :=
      ⟨_, List.mem_singleton_self _, rfl⟩
    exact ⟨c, hsel, hc, Example.rivals_pass_version1 _ hA,
      (hall _ hA rfl (Example.rivals_pass_version1 _ hA)).1 hv,
      Example.rivals_pass_version1 _ hB,
      (hall _ hB rfl (Example.rivals_pass_version1 _ hB)).1 hv⟩
  · obtain ⟨c, hsel, -, hall⟩ := GetACI_latest_import Env.quiet Example.rivals Example.app
      [] Example.keyB rfl
    have hsel2 : GetACI.select Env.quiet Example.rivals Example.app [] =
        .ok (some Example.rowB) := rfl
    have hc : c = Example.rowB := by
      rw [hsel2] at hsel
      exact (Option.some.inj (Except.ok.inj hsel)).symm
    have hflag : Example.rowA.Latest = c.Latest := by rw [hc]; rfl
    refine ⟨c, hsel, hc, Example.rivals_pass_nolabels _ hA, hflag,
      (hall _ hA rfl (Example.rivals_pass_nolabels _ hA)).2
        (fun l hl => absurd hl (List.not_mem_nil l)) hflag,
      Example.rivals_pass_nolabels _ hC, ?_, ?_⟩
    · rw [hc]; decide
    · rw [hc]; decide

/-- C9: when the database query succeeds and the manifest of every ACI-info
with the app name can be read, `GetACI` fails if and only if no ACI-info with
that app name has a manifest carrying all requested labels, the error is then
the "cannot find aci satisfying name ... and labels" one, and in particular it
fails so when no image with that name is stored. -/
theorem GetACI_fails_iff (env : Env) (s : Store) (name : GoString) (labels : List Label)
    (hq : env.appQueryOK)
    (hman : ∀ a ∈ s.db.aciinfo, a.AppName = name →
      ∃ im, s.GetImageManifest env a.BlobKey = .ok im) :
    ((∃ e, s.GetACI env name labels = .error e) ↔
      ¬ ∃ a ∈ s.db.aciinfo, a.AppName = name ∧ s.passes env labels a) ∧
    (∀ e, s.GetACI env name labels = .error e → e = .cannotFindACI name labels) ∧
    ((∀ a ∈ s.db.aciinfo, a.AppName ≠ name) →
      s.GetACI env name labels = .error (.cannotFindACI name labels)) := by
  have hsel := GetACI.select_of_ok env s name labels hq
  obtain ⟨res, hres⟩ := GetACI.loop_total env s (Labels.Get labels versionLabel).2 labels
    (s.db.aciinfo.filter (fun a => a.AppName = name)) none
    (fun a ha => hman a ((mem_filter_appName s name a).mp ha).1
      ((mem_filter_appName s name a).mp ha).2)
  obtain ⟨-, i2, i3⟩ := GetACI.loop_spec env s _ labels _ none res hres
  rw [← hsel] at hres
  cases res with
  | none =>
    have hget : s.GetACI env name labels = .error (.cannotFindACI name labels) := by
      simp [Store.GetACI, hres]
    have hno : ¬ ∃ a ∈ s.db.aciinfo, a.AppName = name ∧ s.passes env labels a := by
      rintro ⟨a, ha, hn, hp⟩
      obtain ⟨c, hc, -⟩ := i2 a ((mem_filter_appName s name a).mpr ⟨ha, hn⟩) hp
      simp at hc
    refine ⟨⟨fun _ => hno, fun _ => ⟨_, hget⟩⟩, fun e he => ?_, fun _ => hget⟩
    rw [hget] at he
    exact (Except.error.inj he).symm
  | some c =>
    have hget : s.GetACI env name labels = .ok c.BlobKey := by
      simp [Store.GetACI, hres]
    have hyes : ∃ a ∈ s.db.aciinfo, a.AppName = name ∧ s.passes env labels a := by
      rcases i3 c rfl with h3 | ⟨hmem, hpass⟩
      · simp at h3
      · rw [mem_filter_appName] at hmem
        exact ⟨c, hmem.1, hmem.2, hpass⟩
    refine ⟨⟨fun ⟨e, he⟩ => ?_, fun hno => absurd hyes hno⟩, fun e he => ?_, fun hnone => ?_⟩
    · rw [hget] at he; simp at he
    · rw [hget] at he; simp at he
    · obtain ⟨a, ha, hn, -⟩ := hyes
      exact absurd hn (hnone a ha)

/-- The manifests of both images of the example can be read. -/
theorem Example.manifests_readable :
    ∀ a ∈ Example.store.db.aciinfo, a.AppName = Example.app →
      ∃ im, Example.store.GetImageManifest Env.quiet a.BlobKey = .ok im := by
  intro a ha _
  have : a ∈ Example.store.db.aciinfo := ha
  simp only [Example.store, List.mem_cons, List.mem_singleton, List.not_mem_nil, or_false] at this
  rcases this with rfl | rfl
  · exact ⟨Example.manifestA, rfl⟩
  · exact ⟨Example.manifestB, rfl⟩

/-- No image of the example carries the label version 3.0. -/
theorem Example.no_version3 :
    ¬ ∃ a ∈ Example.store.db.aciinfo, a.AppName = Example.app ∧
      Example.store.passes Env.quiet [{ Name := versionLabel, Value := ("3.0").toList }] a := by
  rintro ⟨a, ha, -, im, him, hc⟩
  have : a ∈ Example.store.db.aciinfo := ha
  simp only [Example.store, List.mem_cons, List.mem_singleton, List.not_mem_nil, or_false] at this
  obtain ⟨rl, hrl, -, hval⟩ := hc _ (List.mem_singleton_self _)
  rcases this with rfl | rfl
  · have h1 : Example.store.GetImageManifest Env.quiet Example.keyA = .ok Example.manifestA := rfl
    have h2 : Example.manifestA = im := Except.ok.inj (h1.symm.trans him)
    subst h2
    simp only [Example.manifestA, List.mem_singleton] at hrl
    subst hrl
    exact absurd hval (by decide)
  · have h1 : Example.store.GetImageManifest Env.quiet Example.keyB = .ok Example.manifestB := rfl
    have h2 : Example.manifestB = im := Except.ok.inj (h1.symm.trans him)
    subst h2
    simp only [Example.manifestB, List.mem_singleton] at hrl
    subst hrl
    exact absurd hval (by decide)

/-- C9, at the store of the example: both manifests can be read, none carries
version 3.0, and the query for that version fails. -/
theorem GetACI_fails_iff_witness :
    ∃ e, Example.store.GetACI Env.quiet Example.app
      [{ Name := versionLabel, Value := ("3.0").toList }] = .error e :=
  (GetACI_fails_iff Env.quiet Example.store Example.app
    [{ Name := versionLabel, Value := ("3.0").toList }] ⟨rfl, rfl, rfl⟩
    Example.manifests_readable).1.mpr Example.no_version3

/-! ## Removal: proofs -/

/-- The transaction function of `RemoveACI`, when it succeeds, deletes the
ACI-info rows and the remote rows of the key. -/
theorem RemoveACI.fn_ok (env : Env) (key : GoString) (tx tx2 : DB) (u : Unit)
    (h : RemoveACI.fn env key tx = .ok (u, tx2)) :
    tx2.aciinfo = tx.aciinfo.filter (fun a => a.BlobKey ≠ key) ∧
    tx2.remote = tx.remote.filter (fun r => r.BlobKey ≠ key) := by
  unfold RemoveACI.fn at h
  rcases h1 : env.errGetACIInfoWithBlobKey with _ | e1
  · rcases h2 : tx.aciinfo.find? (fun a => a.BlobKey = key) with _ | a
    · simp [GetACIInfoWithBlobKey, guardErr, h1, h2] at h
    · rcases h3 : env.errRemoveACIInfo with _ | e3
      · rcases h4 : env.errRemoveRemote with _ | e4
        · simp only [GetACIInfoWithBlobKey, guardErr, h1, h2, RemoveACIInfo, h3,
            RemoveRemote, h4, Except.ok.injEq, Prod.mk.injEq, true_and] at h
          subst h
          exact ⟨rfl, rfl⟩
        · simp [GetACIInfoWithBlobKey, guardErr, h1, h2, RemoveACIInfo, h3,
            RemoveRemote, h4] at h
      · simp [GetACIInfoWithBlobKey, guardErr, h1, h2, RemoveACIInfo, h3] at h
  · simp [GetACIInfoWithBlobKey, guardErr, h1] at h

/-- When `RemoveACI` returns `nil` or a `StoreRemovalError`, its transaction
was committed: the ACI-info rows and the remote rows of the key are gone. -/
theorem RemoveACI_committed (env : Env) (s s2 : Store) (key : GoString) (res : Option Error)
    (hr : s.RemoveACI env key = (s2, res))
    (hres : res = none ∨ ∃ errs, res = some (.StoreRemovalError errs)) :
    s2.db.aciinfo = s.db.aciinfo.filter (fun a => a.BlobKey ≠ key) ∧
    s2.db.remote = s.db.remote.filter (fun r => r.BlobKey ≠ key) := by
  unfold Store.RemoveACI at hr
  split at hr
  · simp only [Prod.mk.injEq] at hr
    rcases hres with h | ⟨errs, h⟩ <;> rw [h] at hr <;> simp at hr
  · split at hr
    · simp only [Prod.mk.injEq] at hr
      rcases hres with h | ⟨errs, h⟩ <;> rw [h] at hr <;> simp at hr
    · rename_i db u hdo
      have hdb : db.aciinfo = s.db.aciinfo.filter (fun a => a.BlobKey ≠ key) ∧
          db.remote = s.db.remote.filter (fun r => r.BlobKey ≠ key) := by
        unfold DB.Do at hdo
        split at hdo
        · simp at hdo
        · split at hdo
          · simp at hdo
          · rename_i a tx hfn
            split at hdo
            · simp at hdo
            · simp only [Prod.mk.injEq, Except.ok.injEq] at hdo
              rw [← hdo.1]
              exact RemoveACI.fn_ok env key s.db tx a hfn
      have hs2 : s2.db = db := by
        simp only [Diskv.Erase] at hr
        split at hr <;> simp only [Prod.mk.injEq] at hr <;> rw [← hr.1]
      rw [hs2]
      exact hdb

/-- C10: in a store whose blob keys are distinct full-length keys, for a full
key `K` that has an ACI-info row: after `RemoveACI K` has returned `nil` or a
`StoreRemovalError` (whatever the erasures did), `ResolveKey K` fails with
`ErrKeyNotFound` and `GetImageManifest K` fails with that key-not-found error
under its "error resolving key" wrapping (the database query being
answered). -/
theorem RemoveACI_then_not_found (env env2 : Env) (s s2 : Store) (K : GoString)
    (res : Option Error) (hs : s.fullKeys) (hK : ∃ a ∈ s.db.aciinfo, a.BlobKey = K)
    (hr : s.RemoveACI env K = (s2, res))
    (hres : res = none ∨ ∃ errs, res = some (.StoreRemovalError errs))
    (hq : env2.resolveOK) :
    s2.ResolveKey env2 K = .error .ErrKeyNotFound ∧
    s2.GetImageManifest env2 K = .error (.errorResolvingKey .ErrKeyNotFound) := by
  obtain ⟨a, ha, rfl⟩ := hK
  obtain ⟨hlen, htag⟩ := hs.2 a ha
  obtain ⟨hrows, -⟩ := RemoveACI_committed env s s2 a.BlobKey res hr hres
  have hmin : minlenKey = 9 := rfl
  have h71 : lenKey = 71 := rfl
  have hnone : s2.rowsWithPrefix a.BlobKey = [] := by
    unfold Store.rowsWithPrefix
    rw [hrows, List.filter_eq_nil_iff]
    intro b hb hc
    rw [List.mem_filter] at hb
    have hp : a.BlobKey <+: b.BlobKey := List.isPrefixOf_iff_prefix.mp hc
    have hl := (hs.2 b hb.1).1
    have : a.BlobKey = b.BlobKey := hp.eq_of_length (by omega)
    simp [this] at hb
  have hresolve : s2.ResolveKey env2 a.BlobKey = .error .ErrKeyNotFound := by
    have h := ResolveKey_accepted env2 s2 a.BlobKey htag (by omega) hq
    rw [lookupKey_of_le _ (by omega), hnone] at h
    exact h
  exact ⟨hresolve, by simp [Store.GetImageManifest, hresolve]⟩

/-- C10, at the store of the example: removing image A while the erasure of
its blob fails returns a `StoreRemovalError`, and the key is then not found. -/
theorem RemoveACI_then_not_found_witness :
    (Example.store.RemoveACI Example.envEraseFails Example.keyA).2 =
      some (.StoreRemovalError [⟨"permission denied"⟩]) ∧
    (Example.store.RemoveACI Example.envEraseFails Example.keyA).1.ResolveKey
      Env.quiet Example.keyA = .error .ErrKeyNotFound ∧
    (Example.store.RemoveACI Example.envEraseFails Example.keyA).1.GetImageManifest
      Env.quiet Example.keyA = .error (.errorResolvingKey .ErrKeyNotFound) :=
  ⟨rfl, RemoveACI_then_not_found Example.envEraseFails Env.quiet Example.store _ Example.keyA _
    Example.store_fullKeys
    ⟨{ BlobKey := Example.keyA, AppName := Example.app, ImportTime := 1, Latest := true },
      by decide, rfl⟩
    rfl (Or.inr ⟨[⟨"permission denied"⟩], rfl⟩) ⟨rfl, rfl, rfl⟩⟩

/-! ## Removal: what is returned and what is left -/

/-- The transaction function of `RemoveACI` fails on a key that has no
ACI-info row. -/
theorem RemoveACI.fn_absent (env : Env) (key : GoString) (tx : DB)
    (h : ∀ a ∈ tx.aciinfo, a.BlobKey ≠ key) :
    ∃ e, RemoveACI.fn env key tx = .error e := by
  have hfind : tx.aciinfo.find? (fun a => a.BlobKey = key) = none := by
    rw [List.find?_eq_none]
    intro a ha hc
    exact h a ha (by simpa using hc)
  unfold RemoveACI.fn
  rcases h1 : env.errGetACIInfoWithBlobKey with _ | e1
  · exact ⟨.cannotFindImageWithKey key, by simp [GetACIInfoWithBlobKey, guardErr, h1, hfind]⟩
  · exact ⟨.errorGettingAciinfo (.ext e1), by simp [GetACIInfoWithBlobKey, guardErr, h1]⟩

/-- A transaction whose function fails leaves the database as it was and
returns an error. -/
theorem DB.Do_of_fn_error {α : Type} (env : Env) (db : DB)
    (fn : DB → Except Error (α × DB)) (e : Error) (h : fn db = .error e) :
    ∃ e1, db.Do env fn = (db, .error e1) := by
  unfold DB.Do
  rcases h1 : env.errBegin with _ | e1
  · exact ⟨e, by simp [h]⟩
  · exact ⟨.ext e1, rfl⟩

/-- C11: for a key that has no ACI-info row, `RemoveACI` returns an error that
is not a `StoreRemovalError` and leaves the whole store as it was: the
ACI-info table, the remote table, the blob store and the manifest store (no
erasure takes place, whatever the environment would have answered). -/
theorem RemoveACI_absent (env : Env) (s : Store) (key : GoString)
    (h : ∀ a ∈ s.db.aciinfo, a.BlobKey ≠ key) :
    ∃ e, s.RemoveACI env key = (s, some e) ∧ ∀ errs, e ≠ .StoreRemovalError errs := by
  unfold Store.RemoveACI
  rcases hl : env.errExclusiveKeyLock key with _ | el
  · obtain ⟨e0, he0⟩ := RemoveACI.fn_absent env key s.db h
    obtain ⟨e1, he1⟩ := DB.Do_of_fn_error env s.db (RemoveACI.fn env key) e0 he0
    refine ⟨.cannotRemoveImageFromDB key e1, ?_, fun errs hc => by simp at hc⟩
    simp [he1]
  · exact ⟨.errorLockingImage el, rfl, fun errs hc => by simp at hc⟩

/-- C11, at the store of the example: removing a key that is not stored. -/
theorem RemoveACI_absent_witness :
    ∃ e, Example.store.RemoveACI Env.quiet ("sha512-ffff").toList = (Example.store, some e) ∧
      ∀ errs, e ≠ .StoreRemovalError errs :=
  RemoveACI_absent Env.quiet Example.store ("sha512-ffff").toList
    (by
      intro a ha
      have : a ∈ Example.store.db.aciinfo := ha
      simp only [Example.store, List.mem_cons, List.mem_singleton, List.not_mem_nil,
        or_false] at this
      rcases this with rfl | rfl
      · decide
      · decide)

/-- The outcome of `RemoveACI` once its transaction has committed: each store
is what its erasure leaves, and the errors of the failed erasures are
collected in store order. -/
theorem RemoveACI_of_commit (env : Env) (s : Store) (key : GoString) (db : DB)
    (hlock : env.errExclusiveKeyLock key = none)
    (hdo : s.db.Do env (RemoveACI.fn env key) = (db, .ok ())) :
    s.RemoveACI env key =
      ({ blob := (s.blob.Erase (env.errBlobErase key) key).1,
         imageManifest := (s.imageManifest.Erase (env.errManifestErase key) key).1,
         db := db },
       match (env.errBlobErase key).toList ++ (env.errManifestErase key).toList with
       | [] => none
       | e :: errs => some (.StoreRemovalError (e :: errs))) := by
  unfold Store.RemoveACI
  rw [hlock, hdo]
  rcases hb : env.errBlobErase key with _ | eb <;>
    rcases hm : env.errManifestErase key with _ | em <;>
    simp [Diskv.Erase]

/-- The outcome of `RemoveACI` when its transaction fails: the store is left
as it was and the error is the "cannot remove image" one. -/
theorem RemoveACI_of_rollback (env : Env) (s : Store) (key : GoString) (db : DB) (e : Error)
    (hlock : env.errExclusiveKeyLock key = none)
    (hdo : s.db.Do env (RemoveACI.fn env key) = (db, .error e)) :
    s.RemoveACI env key = (s, some (.cannotRemoveImageFromDB key e)) := by
  unfold Store.RemoveACI
  rw [hlock, hdo]

/-- A committed transaction of `RemoveACI` deleted the ACI-info rows and the
remote rows of the key. -/
theorem RemoveACI.Do_ok (env : Env) (db db2 : DB) (key : GoString) (u : Unit)
    (hdo : db.Do env (RemoveACI.fn env key) = (db2, .ok u)) :
    db2.aciinfo = db.aciinfo.filter (fun a => a.BlobKey ≠ key) ∧
    db2.remote = db.remote.filter (fun r => r.BlobKey ≠ key) := by
  unfold DB.Do at hdo
  split at hdo
  · simp at hdo
  · split at hdo
    · simp at hdo
    · rename_i a tx hfn
      split at hdo
      · simp at hdo
      · simp only [Prod.mk.injEq, Except.ok.injEq] at hdo
        rw [← hdo.1]
        exact RemoveACI.fn_ok env key db tx a hfn

/-- C12: when the lock is obtained and the database removal commits,
`RemoveACI` erases the key from the blob store and from the manifest store,
the second erasure taking place whether or not the first failed; it returns
`nil` if and only if both erasures succeed, and otherwise a
`StoreRemovalError` holding exactly the errors of the failed erasures, blob
before imageManifest. -/
theorem RemoveACI_erases_both (env : Env) (s : Store) (key : GoString) (db : DB)
    (hlock : env.errExclusiveKeyLock key = none)
    (hdo : s.db.Do env (RemoveACI.fn env key) = (db, .ok ())) :
    (s.RemoveACI env key).1.blob = (s.blob.Erase (env.errBlobErase key) key).1 ∧
    (s.RemoveACI env key).1.imageManifest =
      (s.imageManifest.Erase (env.errManifestErase key) key).1 ∧
    ((s.RemoveACI env key).2 = none ↔
      env.errBlobErase key = none ∧ env.errManifestErase key = none) ∧
    (¬ (env.errBlobErase key = none ∧ env.errManifestErase key = none) →
      (s.RemoveACI env key).2 = some (.StoreRemovalError
        ((env.errBlobErase key).toList ++ (env.errManifestErase key).toList))) := by
  rw [RemoveACI_of_commit env s key db hlock hdo]
  refine ⟨rfl, rfl, ?_, ?_⟩
  · rcases hb : env.errBlobErase key with _ | eb <;>
      rcases hm : env.errManifestErase key with _ | em <;> simp
  · rcases hb : env.errBlobErase key with _ | eb <;>
      rcases hm : env.errManifestErase key with _ | em <;> simp

/-- C12, at the store of the example: the erasure of the blob of image A
fails, the manifest of image A is erased all the same, and the error holds
the one failure. -/
theorem RemoveACI_erases_both_witness :
    (Example.store.RemoveACI Example.envEraseFails Example.keyA).1.blob =
      [(Example.keyA, [10]), (Example.keyB, [20])] ∧
    (Example.store.RemoveACI Example.envEraseFails Example.keyA).1.imageManifest =
      [(Example.keyB, [2])] ∧
    (Example.store.RemoveACI Example.envEraseFails Example.keyA).2 =
      some (.StoreRemovalError [⟨"permission denied"⟩]) :=
  have h := RemoveACI_erases_both Example.envEraseFails Example.store Example.keyA
    { aciinfo :=
        [{ BlobKey := Example.keyB, AppName := Example.app, ImportTime := 2, Latest := false }],
      remote := [] } rfl rfl
  ⟨h.1.trans rfl, h.2.1.trans rfl, h.2.2.2 (by decide)⟩

/-- C13: the database effect of `RemoveACI` is all or nothing.  Either the
transaction committed (the call returned `nil` or a `StoreRemovalError`) and
both the ACI-info rows of the key and every remote row of that blob key are
gone, or the call returned another error and the two tables are exactly as
before.  So the ACI-info of a stored key is never deleted while a remote row
still refers to the key. -/
theorem RemoveACI_all_or_nothing (env : Env) (s : Store) (key : GoString) :
    (((s.RemoveACI env key).1.db.aciinfo = s.db.aciinfo.filter (fun a => a.BlobKey ≠ key) ∧
        (s.RemoveACI env key).1.db.remote = s.db.remote.filter (fun r => r.BlobKey ≠ key) ∧
        ((s.RemoveACI env key).2 = none ∨
          ∃ errs, (s.RemoveACI env key).2 = some (.StoreRemovalError errs))) ∨
      ((s.RemoveACI env key).1.db = s.db ∧
        ∃ e, (s.RemoveACI env key).2 = some e ∧ ∀ errs, e ≠ .StoreRemovalError errs)) ∧
    ((∃ a ∈ s.db.aciinfo, a.BlobKey = key) →
      (∀ a ∈ (s.RemoveACI env key).1.db.aciinfo, a.BlobKey ≠ key) →
      ∀ r ∈ (s.RemoveACI env key).1.db.remote, r.BlobKey ≠ key) := by
  have hmain : ((s.RemoveACI env key).1.db.aciinfo =
          s.db.aciinfo.filter (fun a => a.BlobKey ≠ key) ∧
        (s.RemoveACI env key).1.db.remote = s.db.remote.filter (fun r => r.BlobKey ≠ key) ∧
        ((s.RemoveACI env key).2 = none ∨
          ∃ errs, (s.RemoveACI env key).2 = some (.StoreRemovalError errs))) ∨
      ((s.RemoveACI env key).1.db = s.db ∧
        ∃ e, (s.RemoveACI env key).2 = some e ∧ ∀ errs, e ≠ .StoreRemovalError errs) := by
    rcases hl : env.errExclusiveKeyLock key with _ | el
    · rcases hdo : s.db.Do env (RemoveACI.fn env key) with ⟨db, res⟩
      rcases res with e | u
      · rw [RemoveACI_of_rollback env s key db e hl hdo]
        exact Or.inr ⟨rfl, _, rfl, fun errs hc => by simp at hc⟩
      · obtain ⟨h1, h2⟩ := RemoveACI.Do_ok env s.db db key u hdo
        rw [RemoveACI_of_commit env s key db hl hdo]
        refine Or.inl ⟨h1, h2, ?_⟩
        rcases (env.errBlobErase key).toList ++ (env.errManifestErase key).toList with _ | ⟨e, l⟩
        · exact Or.inl rfl
        · exact Or.inr ⟨_, rfl⟩
    · have : s.RemoveACI env key = (s, some (.errorLockingImage el)) := by
        simp [Store.RemoveACI, hl]
      rw [this]
      exact Or.inr ⟨rfl, _, rfl, fun errs hc => by simp at hc⟩
  refine ⟨hmain, fun ⟨a, ha, hak⟩ hgone r hr => ?_⟩
  rcases hmain with ⟨-, h2, -⟩ | ⟨h1, -⟩
  · rw [h2, List.mem_filter] at hr
    simpa using hr.2
  · rw [h1] at hgone
    exact absurd hak (hgone a ha)

/-- C13, at the store of the example: the statement of `RemoveRemote` fails
after the ACI-info of image A was deleted in the transaction; the call
returns the "cannot remove image" error and both tables are as before. -/
theorem RemoveACI_all_or_nothing_witness :
    (Example.store.RemoveACI Example.envRemoteFails Example.keyA).1.db = Example.store.db ∧
    (Example.store.RemoveACI Example.envRemoteFails Example.keyA).2 =
      some (.cannotRemoveImageFromDB Example.keyA (.ext ⟨"database is locked"⟩)) :=
  match (RemoveACI_all_or_nothing Example.envRemoteFails Example.store Example.keyA).1 with
  | Or.inl h => absurd h.2.2 (by
      have hres : (Example.store.RemoveACI Example.envRemoteFails Example.keyA).2 =
          some (.cannotRemoveImageFromDB Example.keyA (.ext ⟨"database is locked"⟩)) := rfl
      rw [hres]
      simp)
  | Or.inr h => ⟨h.1, rfl⟩

/-! ## Objects behind the ACI-info rows -/

theorem lookup_filter_ne (d : Diskv) (k k1 : GoString) (h : k1 ≠ k) :
    List.lookup k1 (d.filter (fun kv => kv.1 ≠ k)) = List.lookup k1 d := by
  induction d with
  | nil => rfl
  | cons kv d ih =>
    obtain ⟨k2, v⟩ := kv
    by_cases h2 : k2 = k
    · subst h2
      have hne : (k1 == k2) = false := by simpa using h
      rw [List.filter_cons, if_neg (by simp), List.lookup_cons, hne]
      exact ih
    · simp only [List.filter_cons, ne_eq, h2, not_false_eq_true, decide_True, if_true,
        List.lookup_cons, ih]

theorem Diskv.Write_keeps (d : Diskv) (err : Option ExtError) (k : GoString) (v : List Byte)
    (k1 : GoString) (h : (List.lookup k1 d).isSome = true) :
    (List.lookup k1 (d.Write err k v).1).isSome = true := by
  rcases err with _ | e
  · by_cases hk : k1 = k
    · subst hk
      simp [Diskv.Write, List.lookup_cons]
    · have hne : (k1 == k) = false := by simpa using hk
      simp only [Diskv.Write, List.lookup_cons, hne, lookup_filter_ne d k k1 hk]
      exact h
  · exact h

theorem Diskv.Write_self (d : Diskv) (k : GoString) (v : List Byte) :
    List.lookup k (d.Write none k v).1 = some v := by
  simp [Diskv.Write, List.lookup_cons]

theorem Diskv.Erase_keeps (d : Diskv) (err : Option ExtError) (k k1 : GoString) (hk : k1 ≠ k) :
    List.lookup k1 (d.Erase err k).1 = List.lookup k1 d := by
  rcases err with _ | e
  · exact lookup_filter_ne d k k1 hk
  · rfl

theorem Store.keepsObjects_refl (s : Store) : s.keepsObjects s :=
  ⟨fun _ h => h, fun _ h => h⟩

/-- A failed `WriteACI` leaves the database as it was and removes no object
from the two stores. -/
theorem WriteACI_error_inv (env : Env) (s s2 : Store) (r : List Byte) (latest : Bool)
    (e : Error) (hw : s.WriteACI env r latest = (s2, .error e)) :
    s2.db = s.db ∧ s.keepsObjects s2 := by
  have hsame : ∀ e1 : Error, (s, (Except.error e1 : Except Error GoString)) = (s2, .error e) →
      s2.db = s.db ∧ s.keepsObjects s2 := by
    intro e1 h
    simp only [Prod.mk.injEq] at h
    rw [← h.1]
    exact ⟨rfl, s.keepsObjects_refl⟩
  unfold Store.WriteACI at hw
  split at hw
  · exact hsame _ hw
  rename_i dr hdr
  split at hw
  · exact hsame _ hw
  split at hw
  · exact hsame _ hw
  split at hw
  · exact hsame _ hw
  split at hw
  · exact hsame _ hw
  split at hw
  · exact hsame _ hw
  rename_i key hkey
  split at hw
  · exact hsame _ hw
  split at hw
  · exact hsame _ hw
  rename_i blob hblob
  have hb : blob = (s.blob.Write (env.errBlobImport key) key dr).1 := by rw [hblob]
  simp only at hw
  split at hw
  · simp only [Prod.mk.injEq] at hw
    rw [← hw.1]
    exact ⟨rfl, fun k h => by rw [hb]; exact Diskv.Write_keeps _ _ _ _ _ h, fun _ h => h⟩
  rename_i imj himj
  split at hw
  · simp only [Prod.mk.injEq] at hw
    rw [← hw.1]
    exact ⟨rfl, fun k h => by rw [hb]; exact Diskv.Write_keeps _ _ _ _ _ h, fun _ h => h⟩
  rename_i imageManifest hman
  have hm : imageManifest = (s.imageManifest.Write (env.errManifestWrite key) key imj).1 := by
    rw [hman]
  split at hw
  · simp only [Prod.mk.injEq] at hw
    rw [← hw.1]
    exact ⟨rfl, fun k h => by rw [hb]; exact Diskv.Write_keeps _ _ _ _ _ h,
      fun k h => by rw [hm]; exact Diskv.Write_keeps _ _ _ _ _ h⟩
  · simp at hw

/-- C14: from a store in which every blob key present in the ACI-info table
has an object under that key in the blob store and in the manifest store, the
store after any `WriteACI` call and after any `RemoveACI` call, whatever they
return, still has that property. -/
theorem objectsPresent_preserved (env : Env) (s : Store) (h : s.objectsPresent) :
    (∀ r latest, (s.WriteACI env r latest).1.objectsPresent) ∧
    (∀ key, (s.RemoveACI env key).1.objectsPresent) := by
  constructor
  · intro r latest
    rcases hw : s.WriteACI env r latest with ⟨s2, res⟩
    rcases res with e | k
    · obtain ⟨hdb, hb, hm⟩ := WriteACI_error_inv env s s2 r latest e hw
      intro a ha
      rw [hdb] at ha
      exact ⟨hb _ (h a ha).1, hm _ (h a ha).2⟩
    · obtain ⟨dr, im, imj, -, -, -, -, hblob, hman, hrows, -⟩ :=
        WriteACI_ok_inv env s s2 r latest k hw
      have hb : s2.blob = (s.blob.Write none k dr).1 := hblob
      have hm : s2.imageManifest = (s.imageManifest.Write none k imj).1 := hman
      intro a ha
      simp only at ha
      rw [hrows, List.mem_append, List.mem_filter, List.mem_singleton] at ha
      simp only
      rw [hb, hm]
      rcases ha with ha | rfl
      · exact ⟨Diskv.Write_keeps _ _ _ _ _ (h a ha.1).1, Diskv.Write_keeps _ _ _ _ _ (h a ha.1).2⟩
      · simp [Diskv.Write_self]
  · intro key
    rcases hl : env.errExclusiveKeyLock key with _ | el
    · rcases hdo : s.db.Do env (RemoveACI.fn env key) with ⟨db, res⟩
      rcases res with e | u
      · rw [RemoveACI_of_rollback env s key db e hl hdo]
        exact h
      · obtain ⟨h1, -⟩ := RemoveACI.Do_ok env s.db db key u hdo
        rw [RemoveACI_of_commit env s key db hl hdo]
        intro a ha
        simp only at ha
        rw [h1, List.mem_filter] at ha
        have hne : a.BlobKey ≠ key := by simpa using ha.2
        simp only
        rw [Diskv.Erase_keeps _ _ _ _ hne, Diskv.Erase_keeps _ _ _ _ hne]
        exact h a ha.1
    · have : s.RemoveACI env key = (s, some (.errorLockingImage el)) := by
        simp [Store.RemoveACI, hl]
      rw [this]
      exact h

theorem Example.store_objectsPresent : Example.store.objectsPresent := by
  intro a ha
  have : a ∈ Example.store.db.aciinfo := ha
  simp only [Example.store, List.mem_cons, List.mem_singleton, List.not_mem_nil, or_false] at this
  rcases this with rfl | rfl
  · exact ⟨rfl, rfl⟩
  · exact ⟨rfl, rfl⟩

/-- C14, at the store of the example: the property holds after an ingest and
after the removal of image A whose blob erasure fails. -/
theorem objectsPresent_preserved_witness :
    (Example.store.WriteACI Env.quiet [0] true).1.objectsPresent ∧
    (Example.store.RemoveACI Example.envEraseFails Example.keyA).1.objectsPresent :=
  ⟨(objectsPresent_preserved Env.quiet Example.store Example.store_objectsPresent).1 [0] true,
   (objectsPresent_preserved Example.envEraseFails Example.store
      Example.store_objectsPresent).2 Example.keyA⟩

/-! ## Keys that no stored key can match -/

theorem TreeStore.IsRendered_Write (tenv : TreeEnv) (ts : TreeStore) (key : GoString)
    (s : Store) (rootfs : List Byte) (hr : tenv.Render s key = .ok rootfs) :
    (ts.Write tenv key s).2 = none ∧
    TreeStore.IsRendered (ts.Write tenv key s).1 none key = .ok true := by
  simp [TreeStore.Write, hr, TreeStore.IsRendered, List.lookup_cons]

/-- A call of `RenderTreeStore` without rebuild on a tree that is rendered:
one look at the marker, nothing else, and the tree store is left as it is. -/
theorem RenderTreeStore_rendered (tenv : TreeEnv) (s : Store) (ts : TreeStore)
    (key : GoString) (hlock : tenv.errTreeStoreLock key = none)
    (hir : tenv.errIsRendered key = none)
    (h : TreeStore.IsRendered ts none key = .ok true) :
    s.RenderTreeStore tenv ts key false = (ts, [.IsRendered key], none) := by
  simp [Store.RenderTreeStore, hlock, hir, h]

/-- A call of `RenderTreeStore` without rebuild on a tree that is not
rendered, the renderer succeeding: the marker is looked at, the tree is
removed and written, and it is rendered afterwards. -/
theorem RenderTreeStore_unrendered (tenv : TreeEnv) (s : Store) (ts : TreeStore)
    (key : GoString) (rootfs : List Byte) (hr : tenv.Render s key = .ok rootfs)
    (hlock : tenv.errTreeStoreLock key = none) (hir : tenv.errIsRendered key = none)
    (hrm : tenv.errRemove key = none)
    (h : TreeStore.IsRendered ts none key = .ok false) :
    ∃ ts1, s.RenderTreeStore tenv ts key false =
        (ts1, [.IsRendered key, .Remove key, .Write key], none) ∧
      TreeStore.IsRendered ts1 none key = .ok true := by
  obtain ⟨hw1, hw2⟩ :=
    TreeStore.IsRendered_Write tenv (ts.filter (fun kv => kv.1 ≠ key)) key s rootfs hr
  refine ⟨(TreeStore.Write tenv (ts.filter (fun kv => kv.1 ≠ key)) key s).1, ?_, hw2⟩
  have hw : TreeStore.Write tenv (ts.filter (fun kv => kv.1 ≠ key)) key s =
      ((TreeStore.Write tenv (ts.filter (fun kv => kv.1 ≠ key)) key s).1, none) := by
    rw [← hw1]
  simp only [Store.RenderTreeStore, hlock, hir, h, TreeStore.Remove, hrm, Bool.false_eq_true,
    not_false_eq_true, if_true, if_false, List.singleton_append]
  rw [hw]

/-- C15 as stated fails on a tree that is already rendered: with the tree of
image A rendered and a renderer that succeeds, two calls of `RenderTreeStore`
without rebuild return `nil` and remove and write nothing, not once. -/
theorem RenderTreeStore_twice_counterexample :
    TreeEnv.quiet.Render Example.store Example.keyA = .ok [10] ∧
    Example.store.RenderTreeStore TreeEnv.quiet Example.treeRendered Example.keyA false =
      (Example.treeRendered, [.IsRendered Example.keyA], none) ∧
    TreeCall.writes
      ((Example.store.RenderTreeStore TreeEnv.quiet Example.treeRendered Example.keyA false).2.1
        ++ (Example.store.RenderTreeStore TreeEnv.quiet
          (Example.store.RenderTreeStore TreeEnv.quiet Example.treeRendered
            Example.keyA false).1 Example.keyA false).2.1) Example.keyA = 0 ∧
    TreeCall.removes
      ((Example.store.RenderTreeStore TreeEnv.quiet Example.treeRendered Example.keyA false).2.1
        ++ (Example.store.RenderTreeStore TreeEnv.quiet
          (Example.store.RenderTreeStore TreeEnv.quiet Example.treeRendered
            Example.keyA false).1 Example.keyA false).2.1) Example.keyA = 0 := by
  refine ⟨rfl, rfl, ?_, ?_⟩ <;> decide

/-- C15, amended: for a key for which the renderer succeeds (the lock and the
tree store meeting no failure), two calls of `RenderTreeStore` without rebuild
in succession remove and write the tree exactly once when it was not rendered
before the first call, and not at all when it already was; the second call
finds the tree rendered and returns `nil` after looking at the marker only,
leaving the tree store unchanged, and the tree is rendered after either
call. -/
theorem RenderTreeStore_twice (tenv : TreeEnv) (s : Store) (ts : TreeStore) (key : GoString)
    (rootfs : List Byte) (hr : tenv.Render s key = .ok rootfs)
    (hlock : tenv.errTreeStoreLock key = none) (hir : tenv.errIsRendered key = none)
    (hrm : tenv.errRemove key = none) :
    ∃ ts1 calls1, s.RenderTreeStore tenv ts key false = (ts1, calls1, none) ∧
      s.RenderTreeStore tenv ts1 key false = (ts1, [.IsRendered key], none) ∧
      TreeStore.IsRendered ts1 none key = .ok true ∧
      (TreeStore.IsRendered ts none key = .ok false →
        calls1 = [.IsRendered key, .Remove key, .Write key] ∧
        TreeCall.removes calls1 key = 1 ∧ TreeCall.writes calls1 key = 1) ∧
      (TreeStore.IsRendered ts none key = .ok true →
        calls1 = [.IsRendered key] ∧ ts1 = ts ∧
        TreeCall.removes calls1 key = 0 ∧ TreeCall.writes calls1 key = 0) := by
  have hcases : TreeStore.IsRendered ts none key = .ok true ∨
      TreeStore.IsRendered ts none key = .ok false := by
    unfold TreeStore.IsRendered
    rcases ts.lookup key with _ | entry
    · exact Or.inr rfl
    · rcases hre : entry.rendered
      · exact Or.inr (by simp [hre])
      · exact Or.inl (by simp [hre])
  rcases hcases with h | h
  · refine ⟨ts, [.IsRendered key], RenderTreeStore_rendered tenv s ts key hlock hir h,
      RenderTreeStore_rendered tenv s ts key hlock hir h, h, fun hc => ?_, fun _ => ?_⟩
    · rw [h] at hc; simp at hc
    · exact ⟨rfl, rfl, by simp [TreeCall.removes], by simp [TreeCall.writes]⟩
  · obtain ⟨ts1, h1, h2⟩ := RenderTreeStore_unrendered tenv s ts key rootfs hr hlock hir hrm h
    refine ⟨ts1, _, h1, RenderTreeStore_rendered tenv s ts1 key hlock hir h2, h2,
      fun _ => ?_, fun hc => ?_⟩
    · exact ⟨rfl, by simp [TreeCall.removes], by simp [TreeCall.writes]⟩
    · rw [h] at hc; simp at hc

/-- C15 amended, at the store of the example and an empty tree store: the
first call renders the tree of image A, the second only looks at the
marker. -/
theorem RenderTreeStore_twice_witness :
    ∃ ts1 calls1, Example.store.RenderTreeStore TreeEnv.quiet [] Example.keyA false =
        (ts1, calls1, none) ∧
      Example.store.RenderTreeStore TreeEnv.quiet ts1 Example.keyA false =
        (ts1, [.IsRendered Example.keyA], none) ∧
      TreeStore.IsRendered ts1 none Example.keyA = .ok true ∧
      (TreeStore.IsRendered [] none Example.keyA = .ok false →
        calls1 = [.IsRendered Example.keyA, .Remove Example.keyA, .Write Example.keyA] ∧
        TreeCall.removes calls1 Example.keyA = 1 ∧ TreeCall.writes calls1 Example.keyA = 1) ∧
      (TreeStore.IsRendered [] none Example.keyA = .ok true →
        calls1 = [.IsRendered Example.keyA] ∧ ts1 = [] ∧
        TreeCall.removes calls1 Example.keyA = 0 ∧ TreeCall.writes calls1 Example.keyA = 0) :=
  RenderTreeStore_twice TreeEnv.quiet Example.store [] Example.keyA [10] rfl rfl rfl rfl

/-! ## Opening the store: proofs -/

/-- The first transaction of `NewStore` on a database populated at version
`v`, when nothing fails before the comparison of the versions. -/
theorem NewStore.Do_populated (env : OpenEnv) (base : Base) (v : Nat)
    (hv : base.version = some v) (ho : env.opens) :
    base.Do env (NewStore.fn env) =
      if v > env.dbVersion then (base, .error (.dbVersionGreater v env.dbVersion))
      else (base, .ok (decide (v < env.dbVersion))) := by
  obtain ⟨-, -, -, -, h5, h6, h7, h8⟩ := ho
  by_cases hgt : v > env.dbVersion
  · simp [Base.Do, NewStore.fn, dbIsPopulated, getDBVersion, h5, h7, h8, hv, hgt]
  · simp [Base.Do, NewStore.fn, dbIsPopulated, getDBVersion, h5, h6, h7, h8, hv, hgt]

/-- C16: when `NewStore` opens a base whose database is populated at schema
version `v` (nothing failing before the versions are compared): with `v`
above `dbVersion` it fails with the version error and takes no further step;
with `v` equal to `dbVersion` it succeeds with neither backup nor migration;
and it requests the exclusive store lock if and only if `v` is below
`dbVersion`, in which case it then backs up the database and then runs
`migrate` to `dbVersion`, without running `migrate` when the backup fails. -/
theorem NewStore_populated (env : OpenEnv) (base : Base) (v : Nat)
    (hv : base.version = some v) (ho : env.opens) :
    (env.dbVersion < v →
      NewStore env base = (⟨base, .shared, []⟩, some (.dbVersionGreater v env.dbVersion))) ∧
    (v = env.dbVersion → NewStore env base = (⟨base, .shared, []⟩, none)) ∧
    (OpenCall.ExclusiveLock ∈ (NewStore env base).1.calls ↔ v < env.dbVersion) ∧
    (v < env.dbVersion →
      (∀ e, env.errExclusiveLock = some e →
        NewStore env base = (⟨base, .shared, [.ExclusiveLock]⟩, some (.ext e))) ∧
      (env.errExclusiveLock = none → ∀ e, env.errBackup = some e →
        NewStore env base = (⟨base, .exclusive, [.ExclusiveLock, .backupDB]⟩, some (.ext e))) ∧
      (env.errExclusiveLock = none → env.errBackup = none →
        (NewStore env base).1.calls = [.ExclusiveLock, .backupDB, .migrate env.dbVersion]) ∧
      (env.errExclusiveLock = none → env.errBackup = none → env.errMigrate = none →
        (NewStore env base).2 = none ∧
        (NewStore env base).1.base.version = some env.dbVersion)) := by
  have hdo := NewStore.Do_populated env base v hv ho
  obtain ⟨h1, h2, h3, h4, h5, h6, -, -⟩ := ho
  have hgt : env.dbVersion < v →
      NewStore env base = (⟨base, .shared, []⟩, some (.dbVersionGreater v env.dbVersion)) := by
    intro h
    have h' : v > env.dbVersion := h
    simp [NewStore, h1, h2, h3, h4, hdo, h']
  have heq : v = env.dbVersion → NewStore env base = (⟨base, .shared, []⟩, none) := by
    intro h
    have hn : ¬ v > env.dbVersion := by omega
    have hl : ¬ v < env.dbVersion := by omega
    simp [NewStore, h1, h2, h3, h4, hdo, hn, hl]
  have hlt : v < env.dbVersion →
      NewStore env base =
        match env.errExclusiveLock with
        | some err => (⟨base, .shared, [.ExclusiveLock]⟩, some (.ext err))
        | none =>
          match createBackup env base backupsNumber with
          | (base, some err) => (⟨base, .exclusive, [.ExclusiveLock, .backupDB]⟩, some (.ext err))
          | (base, none) =>
            match base.Do env
              (fun tx => (migrate env tx env.dbVersion).map (fun tx => ((), tx))) with
            | (base, .error err) =>
              (⟨base, .exclusive, [.ExclusiveLock, .backupDB, .migrate env.dbVersion]⟩, some err)
            | (base, .ok _) =>
              (⟨base, .exclusive, [.ExclusiveLock, .backupDB, .migrate env.dbVersion]⟩,
                none) := by
    intro h
    have hn : ¬ v > env.dbVersion := by omega
    simp [NewStore, h1, h2, h3, h4, hdo, hn, h]
  refine ⟨hgt, heq, ⟨fun hmem => ?_, fun hl => ?_⟩, fun hl => ⟨fun e he => ?_, fun hx e he => ?_,
    fun hx hb => ?_, fun hx hb hm => ?_⟩⟩
  · by_contra hc
    rcases Nat.lt_or_ge env.dbVersion v with h | h
    · rw [hgt h] at hmem; simp at hmem
    · rw [heq (by omega)] at hmem; simp at hmem
  · rw [hlt hl]
    rcases env.errExclusiveLock with _ | e
    · simp only
      rcases createBackup env base backupsNumber with ⟨b, _ | e⟩
      · simp only
        rcases b.Do env (fun tx => (migrate env tx env.dbVersion).map (fun tx => ((), tx)))
          with ⟨b2, e | u⟩ <;> simp
      · simp
    · simp
  · rw [hlt hl, he]
  · rw [hlt hl, hx]
    simp [createBackup, he]
  · rw [hlt hl, hx]
    simp only [createBackup, hb]
    rcases (Base.Do env { base with backups := (base.version :: base.backups).take backupsNumber }
      (fun tx => (migrate env tx env.dbVersion).map (fun tx => ((), tx)))) with ⟨b2, e | u⟩ <;> rfl
  · rw [hlt hl, hx]
    have hmax : max v env.dbVersion = env.dbVersion := by omega
    simp [createBackup, hb, Base.Do, migrate, hm, h5, h6, Except.map, hv, hmax]

/-- C16, at a base whose database is at version 1, the target being 2: the
exclusive lock, then the backup, then the migration to 2. -/
theorem NewStore_populated_witness :
    NewStore OpenEnv.quiet Example.baseV1 =
      (⟨{ version := some 2, backups := [some 1] }, .exclusive,
        [.ExclusiveLock, .backupDB, .migrate 2]⟩, none) ∧
    (OpenCall.ExclusiveLock ∈ (NewStore OpenEnv.quiet Example.baseV1).1.calls ↔
      1 < OpenEnv.quiet.dbVersion) :=
  ⟨rfl, (NewStore_populated OpenEnv.quiet Example.baseV1 1 rfl
    ⟨rfl, rfl, rfl, rfl, rfl, rfl, rfl, rfl⟩).2.2.1⟩

/-- The two ways in which `NewStore` succeeds: without migration, holding the
whole-store lock shared, or after the exclusive lock, the backup and the
migration, holding it exclusively. -/
theorem NewStore_ok_cases (env : OpenEnv) (base : Base) (r : Opened)
    (h : NewStore env base = (r, none)) :
    (r.storeLock = .shared ∧ r.calls = []) ∨
    (r.storeLock = .exclusive ∧
      r.calls = [.ExclusiveLock, .backupDB, .migrate env.dbVersion]) := by
  unfold NewStore at h
  split at h
  · simp at h
  split at h
  · simp at h
  split at h
  · simp at h
  split at h
  · simp at h
  split at h
  · simp at h
  split at h
  · split at h
    · simp at h
    split at h
    · simp at h
    split at h
    · simp at h
    · simp only [Prod.mk.injEq, and_true] at h
      rw [← h]
      exact Or.inr ⟨rfl, rfl⟩
  · simp only [Prod.mk.injEq, and_true] at h
    rw [← h]
    exact Or.inl ⟨rfl, rfl⟩

/-- C19 as stated fails after a migration: opening a base whose database is at
version 1 with target version 2 succeeds, and the instance returned holds the
whole-store lock exclusively, not shared. -/
theorem NewStore_lock_counterexample :
    (NewStore OpenEnv.quiet Example.baseV1).2 = none ∧
    (NewStore OpenEnv.quiet Example.baseV1).1.calls = [.ExclusiveLock, .backupDB, .migrate 2] ∧
    (NewStore OpenEnv.quiet Example.baseV1).1.storeLock = .exclusive ∧
    (NewStore OpenEnv.quiet Example.baseV1).1.storeLock ≠ .shared := by
  refine ⟨rfl, rfl, rfl, ?_⟩
  decide

/-- C19, amended: a store instance returned by a successful `NewStore` holds
the whole-store lock in shared mode exactly when `NewStore` performed no
migration; when it performed one, it took the lock exclusively before the
backup and the migration and still holds it exclusively when it returns. -/
theorem NewStore_lock_mode (env : OpenEnv) (base : Base)
    (hok : (NewStore env base).2 = none) :
    ((NewStore env base).1.storeLock = .shared ↔ (NewStore env base).1.calls = []) ∧
    ((NewStore env base).1.storeLock = .exclusive ↔
      (NewStore env base).1.calls = [.ExclusiveLock, .backupDB, .migrate env.dbVersion]) ∧
    ((NewStore env base).1.storeLock = .shared ∨
      (NewStore env base).1.storeLock = .exclusive) := by
  have h : NewStore env base = ((NewStore env base).1, none) := by rw [← hok]
  rcases NewStore_ok_cases env base _ h with ⟨h1, h2⟩ | ⟨h1, h2⟩
  · rw [h1, h2]
    simp
  · rw [h1, h2]
    simp

/-- C19 amended, at a base whose database is already at the target version:
no migration, and the lock is held shared. -/
theorem NewStore_lock_mode_witness :
    ((NewStore OpenEnv.quiet { version := some 2, backups := [] }).1.storeLock = .shared ↔
      (NewStore OpenEnv.quiet { version := some 2, backups := [] }).1.calls = []) ∧
    ((NewStore OpenEnv.quiet { version := some 2, backups := [] }).1.storeLock = .exclusive ↔
      (NewStore OpenEnv.quiet { version := some 2, backups := [] }).1.calls =
        [.ExclusiveLock, .backupDB, .migrate OpenEnv.quiet.dbVersion]) ∧
    ((NewStore OpenEnv.quiet { version := some 2, backups := [] }).1.storeLock = .shared ∨
      (NewStore OpenEnv.quiet { version := some 2, backups := [] }).1.storeLock = .exclusive) :=
  NewStore_lock_mode OpenEnv.quiet { version := some 2, backups := [] } rfl

/-! ## The image lock of `ReadStream`: proofs -/

/-- C17 as stated fails: `ReadStream` on the key of image A takes the shared
lock of the key, opens the reader and closes the lock before it returns; it
returns the reader (its bytes) and, when it has returned, the lock of the key
is not held. -/
theorem ReadStream_lock_counterexample :
    Example.store.ReadStreamLocks Env.quiet Example.keyA =
      ([.SharedKeyLock Example.keyA, .ReadStream Example.keyA, .Close Example.keyA],
        .ok [10]) ∧
    Example.keyA ∉
      LockStep.held [] (Example.store.ReadStreamLocks Env.quiet Example.keyA).1 := by
  have h : Example.store.ReadStreamLocks Env.quiet Example.keyA =
      ([.SharedKeyLock Example.keyA, .ReadStream Example.keyA, .Close Example.keyA],
        .ok [10]) := rfl
  refine ⟨h, ?_⟩
  rw [h]
  decide

/-- C17, amended: `ReadStream` holds the shared per-key image lock only while
it runs.  Once the key is resolved to `k` and the lock obtained, its steps
are: take the shared lock of `k`, open the reader on the blob of `k` with the
lock held, close the lock; otherwise it takes no lock.  In every case the
locks held when it has returned are the locks held before the call, so the
lock it took is no longer held (beyond what the process held before) when the
caller receives and uses the reader, and the result is the result of
`ReadStream`. -/
theorem ReadStream_releases_lock (env : Env) (s : Store) (held : List GoString)
    (key : GoString) :
    (s.ReadStreamLocks env key).2 = s.ReadStream env key ∧
    LockStep.held held (s.ReadStreamLocks env key).1 = held ∧
    (∀ k, s.ResolveKey env key = .ok k → env.errSharedKeyLock k = none →
      (s.ReadStreamLocks env key).1 = [.SharedKeyLock k, .ReadStream k, .Close k] ∧
      LockStep.held held [.SharedKeyLock k] = k :: held ∧
      LockStep.held held [.SharedKeyLock k, .ReadStream k] = k :: held ∧
      List.count k (LockStep.held held [.SharedKeyLock k, .ReadStream k]) =
        List.count k held + 1 ∧
      List.count k (LockStep.held held [.SharedKeyLock k, .ReadStream k, .Close k]) =
        List.count k held) ∧
    ((∀ bytes, s.ReadStream env key ≠ .ok bytes) ∨
      ∃ k, (s.ReadStreamLocks env key).1 = [.SharedKeyLock k, .ReadStream k, .Close k]) ∧
    ((∀ k, s.ResolveKey env key = .ok k → env.errSharedKeyLock k ≠ none) →
      (s.ReadStreamLocks env key).1 = []) := by
  rcases hres : s.ResolveKey env key with e | k
  · have hL : s.ReadStreamLocks env key = ([], .error (.errorResolvingKey e)) := by
      simp [Store.ReadStreamLocks, hres]
    have hR : s.ReadStream env key = .error (.errorResolvingKey e) := by
      simp [Store.ReadStream, hres]
    rw [hL, hR]
    exact ⟨rfl, rfl, fun k hk => by simp at hk, Or.inl (fun b hb => by simp at hb),
      fun _ => rfl⟩
  · rcases hl : env.errSharedKeyLock k with _ | e
    · have hL : s.ReadStreamLocks env key =
          ([.SharedKeyLock k, .ReadStream k, .Close k], s.ReadStream env key) := by
        simp only [Store.ReadStreamLocks, Store.ReadStream, hres, hl, List.singleton_append,
          List.cons_append, List.nil_append]
      rw [hL]
      refine ⟨rfl, ?_, fun k1 hk1 _ => ?_, Or.inr ⟨k, rfl⟩, fun hno => ?_⟩
      · simp [LockStep.held]
      · have hkk : k = k1 := Except.ok.inj hk1
        subst hkk
        refine ⟨rfl, rfl, rfl, ?_, ?_⟩
        · simp [LockStep.held]
        · simp [LockStep.held]
      · exact absurd hl (hno k rfl)
    · have hL : s.ReadStreamLocks env key = ([], .error (.errorLockingImage e)) := by
        simp [Store.ReadStreamLocks, hres, hl]
      have hR : s.ReadStream env key = .error (.errorLockingImage e) := by
        simp [Store.ReadStream, hres, hl]
      rw [hL, hR]
      refine ⟨rfl, rfl, fun k1 hk1 hl1 => ?_, Or.inl (fun b hb => by simp at hb), fun _ => rfl⟩
      have hkk : k = k1 := Except.ok.inj hk1
      subst hkk
      rw [hl] at hl1
      simp at hl1

end Rkt
